import Mathlib

/-!
Shallow embedding of `src/vs/workbench/parts/extensions/electron-browser/extensionEditor.ts`,
the extension editor pane of a desktop IDE workbench.  Pure fragments of the
file are translated as Lean functions; the stateful parts (the navigation bar,
the per-input cached readme/manifest fetches, and the cancel-on-new-load
content loader) are translated as explicit state types with step functions.
External services called by the file (the gallery fetches `getReadme` /
`getManifest`, the markdown renderer `marked.parse`, the webview constructor
and the keybinding service `getLabelFor` / `Keybinding.fromUserSettingsLabel`)
are parameters of the definitions that invoke them.
-/

namespace ExtensionEditor

/-! ### Navigation bar (class `NavBar`, lines 54-98 of the source) -/

/-- The two ids of the `NavbarSection` constant object (source lines 95-98). -/
def NavbarSectionReadme : String := "readme"

/-- Second field of the `NavbarSection` constant object (source lines 95-98). -/
def NavbarSectionContributions : String := "contributions"

/-- The two sub-panels the navbar can dispatch to: `openReadme` and
`openContributions` (source lines 250-255). -/
inductive NavSection
  | readme
  | contributions
deriving DecidableEq, Repr

/-- State of the `NavBar` class: the pushed actions, as (id, label) pairs in
push order (field `actions`, source line 59).  Pushing the first action also
runs it (source lines 80-82), selecting the corresponding section. -/
structure NavBarState where
  actions : List (String × String)
deriving DecidableEq, Repr

/-- Method `NavBar.clear` (source lines 85-88): disposes all actions and leaves
the bar empty. -/
def NavBarState.clear (_s : NavBarState) : NavBarState := ⟨[]⟩

/-- Method `NavBar.push` (source lines 68-83): appends one action with the
given id and label. -/
def NavBarState.push (s : NavBarState) (tabId : String) (label : String) : NavBarState :=
  ⟨s.actions ++ [(tabId, label)]⟩

/-- The navbar operations performed by `setInput` (source lines 240-243):
clear the bar, then push the "Details" tab (id `readme`) and the
"Contributions" tab (id `contributions`). -/
def setInputNavbar (s : NavBarState) : NavBarState :=
  ((s.clear).push NavbarSectionReadme "Details").push NavbarSectionContributions "Contributions"

/-- Method `onNavbarChange` (source lines 250-255): dispatches a navbar id to
the sub-panel it opens; ids other than `readme` and `contributions` fall
through the `switch` and open nothing. -/
def onNavbarChange (tabId : String) : Option NavSection :=
  if tabId = NavbarSectionReadme then some NavSection.readme
  else if tabId = NavbarSectionContributions then some NavSection.contributions
  else none

/-! ### The readme HTML document (function `renderBody`, lines 43-52) -/

/-- Text of the `renderBody` template literal before the stylesheet href
interpolation (source lines 44-48). -/
def renderBodyOpenA : String :=
  "<!DOCTYPE html>\n\t\t<html>\n\t\t\t<head>\n\t\t\t\t<meta http-equiv=\"Content-type\" content=\"text/html;charset=UTF-8\">\n\t\t\t\t<link rel=\"stylesheet\" type=\"text/css\" href=\""

/-- Text of the `renderBody` template literal between the stylesheet href and
the body interpolation (source lines 48-50). -/
def renderBodyOpenB : String :=
  "\" >\n\t\t\t</head>\n\t\t\t<body>"

/-- Text of the `renderBody` template literal after the body interpolation
(source lines 50-51). -/
def renderBodyClose : String :=
  "</body>\n\t\t</html>"

/-- Function `renderBody` (source lines 43-52): the template literal
interpolates the stylesheet url (`require.toUrl('./media/markdown.css')`,
passed here as the parameter `cssUrl`) and the rendered markdown `body`
directly into the document text, with no escaping. -/
def renderBody (cssUrl : String) (body : String) : String :=
  renderBodyOpenA ++ cssUrl ++ renderBodyOpenB ++ body ++ renderBodyClose

/-- Everything of `renderBody`'s output that precedes the interpolated body. -/
def renderBodyOpen (cssUrl : String) : String :=
  renderBodyOpenA ++ cssUrl ++ renderBodyOpenB

/-! ### Content loading (method `loadContents`, lines 427-437, and the
resolution of the promises built by `openReadme` / `openContributions`) -/

/-- Things `openReadme` and `openContributions` put into the `.content`
element: the readme webview, the "No README available." paragraph of the
readme error handler, and the `.subcontent` div of the contributions panel. -/
inductive PanelItem
  | webview
  | noReadmePara
  | contributionsList
deriving DecidableEq, Repr

/-- View-side state of the editor: the children of the `.content` element, the
pending (not yet resolved) loading promise if any — its cancel disposable is
what `loadContents` registers in `contentDisposables` (source line 436) — and
the loads cancelled so far. -/
structure ViewState where
  content : List PanelItem
  pending : Option NavSection
  cancelledLoads : List NavSection
deriving DecidableEq, Repr

/-- First statement of `loadContents` (source line 428):
`this.contentDisposables = dispose(this.contentDisposables)`.  Disposing the
registered disposables cancels the still-pending promise, if any (the
disposable registered at source line 436 calls `promise.cancel()`). -/
def disposeContentDisposables (s : ViewState) : ViewState :=
  { s with pending := none, cancelledLoads := s.cancelledLoads ++ s.pending.toList }

/-- Second statement of `loadContents` (source line 430):
`this.content.innerHTML = ''`. -/
def clearContent (s : ViewState) : ViewState :=
  { s with content := [] }

/-- Remainder of `loadContents` (source lines 433-436): run the loading task,
making its promise the pending one, and register a disposable that cancels
that promise. -/
def startLoadingTask (k : NavSection) (s : ViewState) : ViewState :=
  { s with pending := some k }

/-- Method `loadContents` (source lines 427-437): dispose the previous content
disposables, empty the content element, then start the new loading task. -/
def loadContents (k : NavSection) (s : ViewState) : ViewState :=
  startLoadingTask k (clearContent (disposeContentDisposables s))

/-- Events of the view: the user selects a navbar tab (which runs `openReadme`
or `openContributions`, both of which call `loadContents`), or the pending
promise resolves successfully, or it fails. -/
inductive ViewEv
  | select (k : NavSection)
  | resolveOk
  | resolveErr
deriving DecidableEq, Repr

/-- One step of the view.  On resolution of a pending readme load the webview
is appended to the content element (source lines 262-272); on failure the
"No README available." paragraph is appended (source lines 274-277); on
resolution of a pending contributions load the content element is emptied
again and the `.subcontent` div is appended (source lines 283-284).  A
cancelled promise never resolves, so `resolveOk` / `resolveErr` with no
pending load do nothing. -/
def viewStep (s : ViewState) : ViewEv → ViewState
  | ViewEv.select k => loadContents k s
  | ViewEv.resolveOk =>
    match s.pending with
    | some NavSection.readme =>
      { s with content := s.content ++ [PanelItem.webview], pending := none }
    | some NavSection.contributions =>
      { s with content := [PanelItem.contributionsList], pending := none }
    | none => s
  | ViewEv.resolveErr =>
    match s.pending with
    | some NavSection.readme =>
      { s with content := s.content ++ [PanelItem.noReadmePara], pending := none }
    | some NavSection.contributions =>
      { s with pending := none }
    | none => s

/-- The view right after `setInput`: `this.content.innerHTML = ''` (source
line 245) and no pending load of the new input yet. -/
def initView : ViewState := ⟨[], none, []⟩

/-- The view after a sequence of events following `setInput`. -/
def runView (evs : List ViewEv) : ViewState := evs.foldl viewStep initView

/-! ### The promise caches (source lines 118-119 and 191-192) -/

/-- Modelled from the spec: the class `Cache` of `vs/base/common/cache` is
imported at source line 14 but its source file is not part of this
repository.  The spec describes it as "cache a promise so repeat views reuse
prior fetch results": the first `get` runs the task and stores the promise it
returns, and every later `get` returns the stored promise without running the
task again.  The stored promise is modelled by its result value. -/
structure Cache (α : Type) where
  promise : Option α
deriving Repr

/-- Modelled from the spec: method `Cache.get`.  Returns the result together
with the updated cache and the number of times the task was invoked by this
call (thus 0 on a cache hit, 1 on a miss). -/
def Cache.get {α : Type} (task : Unit → α) (c : Cache α) : α × Cache α × Nat :=
  match c.promise with
  | some p => (p, c, 0)
  | none => (task (), ⟨some (task ())⟩, 1)

/-- Fetch-side state of the editor for one input: the two caches created by
`setInput` (source lines 191-192), the number of invocations of
`extension.getReadme()` and `extension.getManifest()` made for this input, and
the fetch results each view of a tab actually used, in view order. -/
structure InputSession (α β : Type) where
  extensionReadme : Cache α
  extensionManifest : Cache β
  readmeInvocations : Nat
  manifestInvocations : Nat
  readmeResults : List α
  manifestResults : List β

/-- The fetch-side state right after `setInput` ran
`this.extensionReadme = new Cache(() => extension.getReadme())` and
`this.extensionManifest = new Cache(() => extension.getManifest())`
(source lines 191-192): both caches empty, no fetch made yet. -/
def afterSetInput {α β : Type} : InputSession α β :=
  ⟨⟨none⟩, ⟨none⟩, 0, 0, [], []⟩

/-- One tab view.  Opening the Details tab calls `this.extensionReadme.get()`
(source line 258); opening the Contributions tab calls
`this.extensionManifest.get()` (source line 281). -/
def sessionStep {α β : Type} (getReadme : Unit → α) (getManifest : Unit → β)
    (s : InputSession α β) : NavSection → InputSession α β
  | NavSection.readme =>
    let r := s.extensionReadme.get getReadme
    { s with
      extensionReadme := r.2.1
      readmeInvocations := s.readmeInvocations + r.2.2
      readmeResults := s.readmeResults ++ [r.1] }
  | NavSection.contributions =>
    let r := s.extensionManifest.get getManifest
    { s with
      extensionManifest := r.2.1
      manifestInvocations := s.manifestInvocations + r.2.2
      manifestResults := s.manifestResults ++ [r.1] }

/-- The fetch-side state after any sequence of tab views following one
`setInput`. -/
def runSession {α β : Type} (getReadme : Unit → α) (getManifest : Unit → β)
    (evs : List NavSection) : InputSession α β :=
  evs.foldl (sessionStep getReadme getManifest) afterSetInput

/-! ### The readme panel (method `openReadme`, lines 257-278) -/

/-- What `openReadme` ends up showing: the webview with the rendered document,
or the "No README available." paragraph of the error handler. -/
inductive ReadmeOutcome
  | webviewShown (doc : String)
  | noReadmeShown (text : String)
deriving DecidableEq, Repr

/-- The promise chain of `openReadme` before its error handler (source lines
258-273): fetch the readme, parse it with `marked.parse`, wrap the result
with `renderBody`, and hand the document to a freshly created webview.  Any
stage may fail; a failure propagates past the later `.then` stages. -/
def readmeChain (cssUrl : String) (getReadme : Except Unit String)
    (markedParse : String → Except Unit String)
    (createWebview : String → Except Unit Unit) : Except Unit ReadmeOutcome :=
  match getReadme with
  | Except.error e => Except.error e
  | Except.ok raw =>
    match markedParse raw with
    | Except.error e => Except.error e
    | Except.ok parsed =>
      match createWebview (renderBody cssUrl parsed) with
      | Except.error e => Except.error e
      | Except.ok _ => Except.ok (ReadmeOutcome.webviewShown (renderBody cssUrl parsed))

/-- Method `openReadme` (source lines 257-278): the chain above followed by
`.then(null, () => ...)` (source lines 274-277), which turns any failure into
the "No README available." paragraph and a successfully resolved promise. -/
def openReadme (cssUrl : String) (getReadme : Except Unit String)
    (markedParse : String → Except Unit String)
    (createWebview : String → Except Unit Unit) : Except Unit ReadmeOutcome :=
  match readmeChain cssUrl getReadme markedParse createWebview with
  | Except.ok o => Except.ok o
  | Except.error _ => Except.ok (ReadmeOutcome.noReadmeShown "No README available.")

/-! ### The extension manifest (interface `IExtensionManifest` as used by this
file) and the contribution renderers (source lines 280-425) -/

/-- The `contributes.configuration` object: its `properties` object is modelled
as an association list mapping each property key to its `description`
(the only field the renderer reads, source line 307). -/
structure ConfigurationContrib where
  properties : Option (List (String × String))
deriving DecidableEq, Repr

/-- One entry of `contributes.debuggers`: the renderer reads `label`, `type`
and `runtime` (source line 323).  In the source `label` may be absent, which
the renderer covers with `d.label || d.type`. -/
structure DebuggerContrib where
  label : Option String
  typ : String
  runtime : String
deriving DecidableEq, Repr

/-- One entry of `contributes.themes`: the renderer reads `label`
(source line 338). -/
structure ThemeContrib where
  label : String
deriving DecidableEq, Repr

/-- One entry of `contributes.jsonValidation`: the renderer reads `fileMatch`
(source line 353). -/
structure JsonValidationContrib where
  fileMatch : String
deriving DecidableEq, Repr

/-- One entry of `contributes.commands`: the renderer reads `command` and
`title` (source lines 366-371). -/
structure CommandContribution where
  command : String
  title : String
deriving DecidableEq, Repr

/-- One entry of a `contributes.menus` context array: the renderer reads
`command` (source line 378). -/
structure MenuItemContrib where
  command : String
deriving DecidableEq, Repr

/-- One entry of `contributes.keybindings`: the renderer reads `command` and
`key` (source lines 390-392). -/
structure KeybindingContrib where
  command : String
  key : String
deriving DecidableEq, Repr

/-- The `contributes` object.  Every category may be absent; `menus` is an
object mapping a menu context name to an array of menu items, modelled as an
association list in key order. -/
structure Contributes where
  configuration : Option ConfigurationContrib
  commands : Option (List CommandContribution)
  menus : Option (List (String × List MenuItemContrib))
  keybindings : Option (List KeybindingContrib)
  themes : Option (List ThemeContrib)
  jsonValidation : Option (List JsonValidationContrib)
  debuggers : Option (List DebuggerContrib)
deriving DecidableEq, Repr

/-- The manifest as used by this file.  `contributes` itself may be absent;
every renderer dereferences it without a guard. -/
structure ExtensionManifest where
  contributes : Option Contributes
deriving DecidableEq, Repr

/-- Result of `new Keybinding(Keybinding.fromUserSettingsLabel(...))` (source
line 392): a keybinding wrapping its encoded numeric value. -/
structure KeybindingCode where
  value : Int
deriving DecidableEq, Repr

/-- JavaScript `a || b` on an optional string `a`: an absent or empty string
is falsy, so `b` is used in those cases. -/
def jsOrString (a : Option String) (b : String) : String :=
  match a with
  | some s => if s = "" then b else s
  | none => b

/-- The `properties` object read by `renderSettings` (source lines 295-296):
`configuration && configuration.properties`. -/
def settingsProps (cbs : Contributes) : List (String × String) :=
  (cbs.configuration.bind ConfigurationContrib.properties).getD []

/-- The `contrib` array of `renderSettings` (source line 297):
`properties ? Object.keys(properties) : []`. -/
def settingsKeys (cbs : Contributes) : List String :=
  (settingsProps cbs).map Prod.fst

/-- The table rows of `renderSettings` (source line 307): one row per key,
showing the key and `properties[key].description`. -/
def settingsRows (cbs : Contributes) : List (String × String) :=
  (settingsKeys cbs).map (fun key => (key, (List.lookup key (settingsProps cbs)).getD ""))

/-- A rendered `details` section: the count interpolated into the `summary`
line, and the rows (or list items) of the table (or list) below it. -/
def renderSettings (m : ExtensionManifest) : Except Unit (Option (Nat × List (String × String))) :=
  match m.contributes with
  | none => Except.error ()
  | some cbs =>
    if (settingsKeys cbs).length = 0 then Except.ok none
    else Except.ok (some ((settingsKeys cbs).length, settingsRows cbs))

/-- The `contrib` array of `renderDebuggers` (source line 313):
`manifest.contributes.debuggers || []`. -/
def debuggersContrib (cbs : Contributes) : List DebuggerContrib :=
  cbs.debuggers.getD []

/-- The table rows of `renderDebuggers` (source line 323): one row per entry,
showing `d.label || d.type` and `d.runtime`. -/
def debuggersRows (cbs : Contributes) : List (String × String) :=
  (debuggersContrib cbs).map (fun d => (jsOrString d.label d.typ, d.runtime))

/-- Method `renderDebuggers` (source lines 312-326). -/
def renderDebuggers (m : ExtensionManifest) : Except Unit (Option (Nat × List (String × String))) :=
  match m.contributes with
  | none => Except.error ()
  | some cbs =>
    if (debuggersContrib cbs).length = 0 then Except.ok none
    else Except.ok (some ((debuggersContrib cbs).length, debuggersRows cbs))

/-- The `contrib` array of `renderThemes` (source line 329):
`manifest.contributes.themes || []`. -/
def themesContrib (cbs : Contributes) : List ThemeContrib :=
  cbs.themes.getD []

/-- The list items of `renderThemes` (source line 338): one per theme, showing
its label. -/
def themesRows (cbs : Contributes) : List String :=
  (themesContrib cbs).map ThemeContrib.label

/-- Method `renderThemes` (source lines 328-341). -/
def renderThemes (m : ExtensionManifest) : Except Unit (Option (Nat × List String)) :=
  match m.contributes with
  | none => Except.error ()
  | some cbs =>
    if (themesContrib cbs).length = 0 then Except.ok none
    else Except.ok (some ((themesContrib cbs).length, themesRows cbs))

/-- The `contrib` array of `renderJSONValidation` (source line 344):
`manifest.contributes.jsonValidation || []`. -/
def jsonValidationContrib (cbs : Contributes) : List JsonValidationContrib :=
  cbs.jsonValidation.getD []

/-- The list items of `renderJSONValidation` (source line 353): one per
validator, showing its `fileMatch`. -/
def jsonValidationRows (cbs : Contributes) : List String :=
  (jsonValidationContrib cbs).map JsonValidationContrib.fileMatch

/-- Method `renderJSONValidation` (source lines 343-356). -/
def renderJSONValidation (m : ExtensionManifest) : Except Unit (Option (Nat × List String)) :=
  match m.contributes with
  | none => Except.error ()
  | some cbs =>
    if (jsonValidationContrib cbs).length = 0 then Except.ok none
    else Except.ok (some ((jsonValidationContrib cbs).length, jsonValidationRows cbs))

/-! ### Method `renderCommands` (source lines 358-425) -/

/-- The local interface `Command` of `renderCommands` (source lines 359-364):
one table row. -/
structure CommandRow where
  id : String
  title : String
  keybindings : List String
  menus : List String
deriving DecidableEq, Repr

/-- Truthiness of `allCommands[i]`: whether a row with id `i` exists.  The
`allCommands` map always points at the last row of the `commands` array
carrying its id (the `reduce` at source line 373 overwrites earlier entries,
and later insertions at source lines 382 and 397 append fresh ids). -/
def hasId (cs : List CommandRow) (i : String) : Bool :=
  cs.any (fun c => c.id == i)

/-- Mutation of the row object `allCommands[i]` (source lines 385 and 400):
since the map points at the last row with id `i`, applying `f` through it
rewrites the last matching element of the `commands` array. -/
def updateLast (i : String) (f : CommandRow → CommandRow) : List CommandRow → List CommandRow
  | [] => []
  | c :: cs =>
    if hasId cs i then c :: updateLast i f cs
    else if c.id == i then f c :: cs
    else c :: cs

/-- The menu references iterated by the nested `forEach` over
`manifest.contributes.menus || {}` (source lines 375-377): (context, command)
pairs, contexts in key order, items in array order. -/
def menuPairs (cbs : Contributes) : List (String × String) :=
  (cbs.menus.getD []).flatMap (fun cm => cm.2.map (fun it => (cm.1, it.command)))

/-- Body of the menus `forEach` (source lines 378-387): a referenced command
that already has a row gets the context appended to its `menus`; otherwise a
new row with empty title is appended. -/
def stepMenu (cs : List CommandRow) (p : String × String) : List CommandRow :=
  if hasId cs p.2 then updateLast p.2 (fun c => { c with menus := c.menus ++ [p.1] }) cs
  else cs ++ [⟨p.2, "", [], [p.1]⟩]

/-- The displayed label of one keybinding entry (source lines 392-393):
`keybindingService.getLabelFor(new Keybinding(Keybinding.fromUserSettingsLabel(userString.key)))`.
Both services are external and appear as the parameters `getLabelFor` and
`fromUserSettingsLabel`. -/
def keybindingLabel (getLabelFor : KeybindingCode → String)
    (fromUserSettingsLabel : String → Int) (k : KeybindingContrib) : String :=
  getLabelFor ⟨fromUserSettingsLabel k.key⟩

/-- Body of the keybindings `forEach` (source lines 390-402): a referenced
command that already has a row gets the resolved label appended to its
`keybindings`; otherwise a new row with empty title is appended. -/
def stepKeybinding (getLabelFor : KeybindingCode → String)
    (fromUserSettingsLabel : String → Int)
    (cs : List CommandRow) (k : KeybindingContrib) : List CommandRow :=
  let key := keybindingLabel getLabelFor fromUserSettingsLabel k
  if hasId cs k.command then
    updateLast k.command (fun c => { c with keybindings := c.keybindings ++ [key] }) cs
  else cs ++ [⟨k.command, "", [key], []⟩]

/-- The `commands` array of `renderCommands` right before rendering: the rows
declared by `contributes.commands` (source lines 366-371), extended by the
menus pass and then the keybindings pass. -/
def commandRows (getLabelFor : KeybindingCode → String)
    (fromUserSettingsLabel : String → Int) (cbs : Contributes) : List CommandRow :=
  let base := (cbs.commands.getD []).map (fun c => (⟨c.command, c.title, [], []⟩ : CommandRow))
  let afterMenus := List.foldl stepMenu base (menuPairs cbs)
  List.foldl (stepKeybinding getLabelFor fromUserSettingsLabel) afterMenus (cbs.keybindings.getD [])

/-- Method `renderCommands` (source lines 358-425): nothing is rendered when
the merged array is empty; otherwise the summary shows `commands.length` and
the table has one row per array element (source lines 408-424). -/
def renderCommands (getLabelFor : KeybindingCode → String)
    (fromUserSettingsLabel : String → Int) (m : ExtensionManifest) :
    Except Unit (Option (Nat × List CommandRow)) :=
  match m.contributes with
  | none => Except.error ()
  | some cbs =>
    if (commandRows getLabelFor fromUserSettingsLabel cbs).length = 0 then Except.ok none
    else
      Except.ok (some ((commandRows getLabelFor fromUserSettingsLabel cbs).length,
        commandRows getLabelFor fromUserSettingsLabel cbs))

/-- The contributions panel assembled by `openContributions` (source lines
280-292): the five sections in render order.  An exception thrown by any
renderer aborts the whole `.then` block. -/
structure ContributionsPanel where
  settings : Option (Nat × List (String × String))
  commands : Option (Nat × List CommandRow)
  themes : Option (Nat × List String)
  jsonValidation : Option (Nat × List String)
  debuggers : Option (Nat × List (String × String))
deriving DecidableEq, Repr

/-- Method `openContributions` (source lines 280-292): render the five
sections in source order; the first failure aborts. -/
def openContributions (getLabelFor : KeybindingCode → String)
    (fromUserSettingsLabel : String → Int) (m : ExtensionManifest) :
    Except Unit ContributionsPanel :=
  match renderSettings m with
  | Except.error e => Except.error e
  | Except.ok s =>
    match renderCommands getLabelFor fromUserSettingsLabel m with
    | Except.error e => Except.error e
    | Except.ok c =>
      match renderThemes m with
      | Except.error e => Except.error e
      | Except.ok t =>
        match renderJSONValidation m with
        | Except.error e => Except.error e
        | Except.ok j =>
          match renderDebuggers m with
          | Except.error e => Except.error e
          | Except.ok d => Except.ok ⟨s, c, t, j, d⟩

/-! ### Derived views of the command merge, used to state its properties -/

/-- The ids of the rows of a `commands` array. -/
def rowIds (cs : List CommandRow) : List String :=
  cs.map CommandRow.id

/-- The ids declared by `contributes.commands`, in declaration order. -/
def declaredIds (cbs : Contributes) : List String :=
  (cbs.commands.getD []).map CommandContribution.command

/-- The menu contexts referencing a given command id, in menu iteration
order. -/
def menusFor (i : String) (mps : List (String × String)) : List String :=
  (mps.filter (fun p => p.2 == i)).map Prod.fst

/-- The resolved labels of the keybinding entries for a given command id, in
entry order. -/
def kbLabelsFor (getLabelFor : KeybindingCode → String)
    (fromUserSettingsLabel : String → Int) (i : String)
    (ks : List KeybindingContrib) : List String :=
  (ks.filter (fun k => k.command == i)).map (keybindingLabel getLabelFor fromUserSettingsLabel)

/-- The ids of `l` not already in `seen`, first occurrences only, in first
occurrence order: the ids for which the merge appends a fresh row. -/
def newIds (seen : List String) : List String → List String
  | [] => []
  | i :: is => if i ∈ seen then newIds seen is else i :: newIds (seen ++ [i]) is

/-! ### Concrete inputs used to exercise the theorems -/

/-- A concrete stand-in for the external `keybindingService.getLabelFor`. -/
def exampleLabelFor : KeybindingCode → String :=
  fun kb => toString kb.value

/-- A concrete stand-in for the external `Keybinding.fromUserSettingsLabel`. -/
def exampleFromUserSettings : String → Int :=
  fun s => Int.ofNat s.length

/-- A concrete `contributes` object exercising every category, including a
command referenced by menus and keybindings, a menu-only command and a
keybinding-only command. -/
def exampleContributes : Contributes :=
  { configuration := some ⟨some [("editor.fontSize", "The font size")]⟩
    commands := some [⟨"x", "Run X"⟩]
    menus := some [("editor", [⟨"x"⟩, ⟨"y"⟩]), ("palette", [⟨"x"⟩])]
    keybindings := some [⟨"x", "ctrl"⟩, ⟨"z", "alt"⟩]
    themes := some [⟨"Dark"⟩]
    jsonValidation := none
    debuggers := some [⟨some "", "node", "node.exe"⟩] }

/-- A concrete manifest wrapping `exampleContributes`. -/
def exampleManifest : ExtensionManifest := ⟨some exampleContributes⟩

/-- A concrete manifest whose `contributes.commands` declares the same command
id twice. -/
def dupManifest : ExtensionManifest :=
  ⟨some { configuration := none
          commands := some [⟨"x", "a"⟩, ⟨"x", "b"⟩]
          menus := none
          keybindings := none
          themes := none
          jsonValidation := none
          debuggers := none }⟩

/-- Invariant of the fetch-side state: each cache is either still empty with
no fetch made, or holds the (unique) fetch result after exactly one fetch,
and every result a view used is that fetch result. -/
def SessionInv {α β : Type} (getReadme : Unit → α) (getManifest : Unit → β)
    (s : InputSession α β) : Prop :=
  (s.extensionReadme.promise = none ∧ s.readmeInvocations = 0 ∨
    s.extensionReadme.promise = some (getReadme ()) ∧ s.readmeInvocations = 1) ∧
  (s.extensionManifest.promise = none ∧ s.manifestInvocations = 0 ∨
    s.extensionManifest.promise = some (getManifest ()) ∧ s.manifestInvocations = 1) ∧
  s.readmeResults = List.replicate s.readmeResults.length (getReadme ()) ∧
  s.manifestResults = List.replicate s.manifestResults.length (getManifest ())

/-- Invariant of the view-side state: the content element holds at most one
panel, and is empty while a load is pending. -/
def ViewInv (s : ViewState) : Prop :=
  s.content.length ≤ 1 ∧ (s.pending.isSome = true → s.content = [])

/-! ## Theorems -/

/-- Appending the replicated element to a replicated list keeps it
replicated. -/
theorem replicate_snoc {γ : Type} (l : List γ) (a : γ)
    (h : l = List.replicate l.length a) :
    l ++ [a] = List.replicate (l ++ [a]).length a := by
  have hl : (l ++ [a]).length = l.length + 1 := by simp
  rw [hl, List.replicate_succ', ← h]

/-- One tab view preserves the fetch-side invariant. -/
theorem sessionStep_inv {α β : Type} (getReadme : Unit → α) (getManifest : Unit → β)
    (s : InputSession α β) (e : NavSection) (h : SessionInv getReadme getManifest s) :
    SessionInv getReadme getManifest (sessionStep getReadme getManifest s e) := by
  obtain ⟨hr, hm, hrr, hmr⟩ := h
  cases e with
  | readme =>
    rcases hr with ⟨hp, hi⟩ | ⟨hp, hi⟩ <;>
      refine ⟨Or.inr ⟨?_, ?_⟩, ?_, ?_, ?_⟩ <;>
        simp only [sessionStep, Cache.get, hp, hi] <;>
          first
            | rfl
            | exact hm
            | exact hmr
            | exact replicate_snoc s.readmeResults (getReadme ()) hrr
  | contributions =>
    rcases hm with ⟨hp, hi⟩ | ⟨hp, hi⟩ <;>
      refine ⟨?_, Or.inr ⟨?_, ?_⟩, ?_, ?_⟩ <;>
        simp only [sessionStep, Cache.get, hp, hi] <;>
          first
            | rfl
            | exact hr
            | exact hrr
            | exact replicate_snoc s.manifestResults (getManifest ()) hmr

/-- The fetch-side invariant holds along any sequence of tab views. -/
theorem foldl_sessionStep_inv {α β : Type} (getReadme : Unit → α) (getManifest : Unit → β)
    (evs : List NavSection) :
    ∀ s : InputSession α β, SessionInv getReadme getManifest s →
      SessionInv getReadme getManifest (evs.foldl (sessionStep getReadme getManifest) s) := by
  induction evs with
  | nil => exact fun s h => h
  | cons e es ih =>
    intro s h
    exact ih _ (sessionStep_inv getReadme getManifest s e h)

/-- Claim C1: for one input (one `setInput`), however the user switches
between the two tabs, `extension.getReadme()` and `extension.getManifest()`
are each invoked at most once, and every repeat view of a tab uses the result
of the prior fetch (all used results equal the single fetch result). -/
theorem cached_fetches_at_most_once {α β : Type} (getReadme : Unit → α)
    (getManifest : Unit → β) (evs : List NavSection) :
    (runSession getReadme getManifest evs).readmeInvocations ≤ 1 ∧
    (runSession getReadme getManifest evs).manifestInvocations ≤ 1 ∧
    (runSession getReadme getManifest evs).readmeResults =
      List.replicate (runSession getReadme getManifest evs).readmeResults.length
        (getReadme ()) ∧
    (runSession getReadme getManifest evs).manifestResults =
      List.replicate (runSession getReadme getManifest evs).manifestResults.length
        (getManifest ()) := by
  have h0 : SessionInv getReadme getManifest (afterSetInput (α := α) (β := β)) := by
    refine ⟨Or.inl ⟨rfl, rfl⟩, Or.inl ⟨rfl, rfl⟩, rfl, rfl⟩
  have h : SessionInv getReadme getManifest (runSession getReadme getManifest evs) :=
    foldl_sessionStep_inv getReadme getManifest evs afterSetInput h0
  obtain ⟨hr, hm, hrr, hmr⟩ := h
  refine ⟨?_, ?_, hrr, hmr⟩
  · rcases hr with ⟨_, hi⟩ | ⟨_, hi⟩ <;> omega
  · rcases hm with ⟨_, hi⟩ | ⟨_, hi⟩ <;> omega

/-- One view event preserves the view-side invariant. -/
theorem viewStep_inv (s : ViewState) (e : ViewEv) (h : ViewInv s) :
    ViewInv (viewStep s e) := by
  obtain ⟨hlen, hpend⟩ := h
  cases e with
  | select k =>
    exact ⟨by simp [viewStep, loadContents, startLoadingTask, clearContent,
      disposeContentDisposables], by intro _; rfl⟩
  | resolveOk =>
    cases hp : s.pending with
    | none => simpa [viewStep, hp] using ⟨hlen, hpend⟩
    | some k =>
      have hc : s.content = [] := hpend (by simp [hp])
      cases k with
      | readme => simp [viewStep, hp, ViewInv, hc]
      | contributions => simp [viewStep, hp, ViewInv, hc]
  | resolveErr =>
    cases hp : s.pending with
    | none => simpa [viewStep, hp] using ⟨hlen, hpend⟩
    | some k =>
      have hc : s.content = [] := hpend (by simp [hp])
      cases k with
      | readme => simp [viewStep, hp, ViewInv, hc]
      | contributions => simp [viewStep, hp, ViewInv, hc, hlen]

/-- The view-side invariant holds along any sequence of view events after
`setInput`. -/
theorem runView_inv (evs : List ViewEv) : ViewInv (runView evs) := by
  suffices h : ∀ s : ViewState, ViewInv s → ViewInv (evs.foldl viewStep s) from
    h initView ⟨by simp [initView], fun _ => rfl⟩
  induction evs with
  | nil => exact fun s h => h
  | cons e es ih => exact fun s h => ih _ (viewStep_inv s e h)

/-- Claim C7: on every load the content element is emptied (and, per
`loadContents`, the previous panel's disposables are disposed first — see
`loadContents_cancels_pending`), so after any sequence of tab selections and
load resolutions the content area holds at most one sub-panel, never the
README webview and the contributions tables together. -/
theorem content_holds_at_most_one_panel (evs : List ViewEv) (k : NavSection)
    (s : ViewState) :
    (runView evs).content.length ≤ 1 ∧ (loadContents k s).content = [] :=
  ⟨(runView_inv evs).1, rfl⟩

/-- Unfolding of `renderSettings` on a defined `contributes` object. -/
theorem renderSettings_eq (m : ExtensionManifest) (cbs : Contributes)
    (h : m.contributes = some cbs) :
    renderSettings m =
      if (settingsKeys cbs).length = 0 then Except.ok none
      else Except.ok (some ((settingsKeys cbs).length, settingsRows cbs)) := by
  obtain ⟨mc⟩ := m
  obtain rfl : mc = some cbs := h
  rfl

/-- Unfolding of `renderCommands` on a defined `contributes` object. -/
theorem renderCommands_eq (getLabelFor : KeybindingCode → String)
    (fromUserSettingsLabel : String → Int) (m : ExtensionManifest) (cbs : Contributes)
    (h : m.contributes = some cbs) :
    renderCommands getLabelFor fromUserSettingsLabel m =
      if (commandRows getLabelFor fromUserSettingsLabel cbs).length = 0 then Except.ok none
      else Except.ok (some ((commandRows getLabelFor fromUserSettingsLabel cbs).length,
        commandRows getLabelFor fromUserSettingsLabel cbs)) := by
  obtain ⟨mc⟩ := m
  obtain rfl : mc = some cbs := h
  rfl

/-- Unfolding of `renderThemes` on a defined `contributes` object. -/
theorem renderThemes_eq (m : ExtensionManifest) (cbs : Contributes)
    (h : m.contributes = some cbs) :
    renderThemes m =
      if (themesContrib cbs).length = 0 then Except.ok none
      else Except.ok (some ((themesContrib cbs).length, themesRows cbs)) := by
  obtain ⟨mc⟩ := m
  obtain rfl : mc = some cbs := h
  rfl

/-- Unfolding of `renderJSONValidation` on a defined `contributes` object. -/
theorem renderJSONValidation_eq (m : ExtensionManifest) (cbs : Contributes)
    (h : m.contributes = some cbs) :
    renderJSONValidation m =
      if (jsonValidationContrib cbs).length = 0 then Except.ok none
      else Except.ok (some ((jsonValidationContrib cbs).length, jsonValidationRows cbs)) := by
  obtain ⟨mc⟩ := m
  obtain rfl : mc = some cbs := h
  rfl

/-- Unfolding of `renderDebuggers` on a defined `contributes` object. -/
theorem renderDebuggers_eq (m : ExtensionManifest) (cbs : Contributes)
    (h : m.contributes = some cbs) :
    renderDebuggers m =
      if (debuggersContrib cbs).length = 0 then Except.ok none
      else Except.ok (some ((debuggersContrib cbs).length, debuggersRows cbs)) := by
  obtain ⟨mc⟩ := m
  obtain rfl : mc = some cbs := h
  rfl

/-- With a defined `contributes` object, `renderSettings` never throws. -/
theorem renderSettings_isOk (m : ExtensionManifest) (cbs : Contributes)
    (h : m.contributes = some cbs) : ∃ v, renderSettings m = Except.ok v := by
  rw [renderSettings_eq m cbs h]
  split <;> exact ⟨_, rfl⟩

/-- With a defined `contributes` object, `renderCommands` never throws. -/
theorem renderCommands_isOk (getLabelFor : KeybindingCode → String)
    (fromUserSettingsLabel : String → Int) (m : ExtensionManifest) (cbs : Contributes)
    (h : m.contributes = some cbs) :
    ∃ v, renderCommands getLabelFor fromUserSettingsLabel m = Except.ok v := by
  rw [renderCommands_eq getLabelFor fromUserSettingsLabel m cbs h]
  split <;> exact ⟨_, rfl⟩

/-- With a defined `contributes` object, `renderThemes` never throws. -/
theorem renderThemes_isOk (m : ExtensionManifest) (cbs : Contributes)
    (h : m.contributes = some cbs) : ∃ v, renderThemes m = Except.ok v := by
  rw [renderThemes_eq m cbs h]
  split <;> exact ⟨_, rfl⟩

/-- With a defined `contributes` object, `renderJSONValidation` never
throws. -/
theorem renderJSONValidation_isOk (m : ExtensionManifest) (cbs : Contributes)
    (h : m.contributes = some cbs) : ∃ v, renderJSONValidation m = Except.ok v := by
  rw [renderJSONValidation_eq m cbs h]
  split <;> exact ⟨_, rfl⟩

/-- With a defined `contributes` object, `renderDebuggers` never throws. -/
theorem renderDebuggers_isOk (m : ExtensionManifest) (cbs : Contributes)
    (h : m.contributes = some cbs) : ∃ v, renderDebuggers m = Except.ok v := by
  rw [renderDebuggers_eq m cbs h]
  split <;> exact ⟨_, rfl⟩

/-- Claim C10: when `manifest.contributes` is defined, rendering the
contributions panel completes without error whatever categories are absent —
each renderer guards missing categories with a default or an early return —
while an absent `contributes` is the unguarded precondition: `renderSettings`
(the first renderer `openContributions` runs) dereferences it and throws, and
the whole panel render fails. -/
theorem contributions_render_total (getLabelFor : KeybindingCode → String)
    (fromUserSettingsLabel : String → Int) (m : ExtensionManifest) :
    (∀ cbs, m.contributes = some cbs →
      (openContributions getLabelFor fromUserSettingsLabel m).isOk = true) ∧
    (m.contributes = none →
      renderSettings m = Except.error () ∧
      openContributions getLabelFor fromUserSettingsLabel m = Except.error ()) := by
  constructor
  · intro cbs h
    obtain ⟨s, hs⟩ := renderSettings_isOk m cbs h
    obtain ⟨c, hc⟩ := renderCommands_isOk getLabelFor fromUserSettingsLabel m cbs h
    obtain ⟨t, ht⟩ := renderThemes_isOk m cbs h
    obtain ⟨j, hj⟩ := renderJSONValidation_isOk m cbs h
    obtain ⟨d, hd⟩ := renderDebuggers_isOk m cbs h
    simp [openContributions, hs, hc, ht, hj, hd, Except.isOk, Except.toBool]
  · intro h
    obtain ⟨mc⟩ := m
    obtain rfl : mc = none := h
    exact ⟨rfl, rfl⟩

/-- Witness for C10: the example manifest renders without error, and the
manifest with no `contributes` makes `renderSettings` throw. -/
theorem contributions_render_total_witness :
    (openContributions exampleLabelFor exampleFromUserSettings exampleManifest).isOk = true ∧
    renderSettings (⟨none⟩ : ExtensionManifest) = Except.error () :=
  ⟨(contributions_render_total exampleLabelFor exampleFromUserSettings exampleManifest).1
      exampleContributes rfl,
   ((contributions_render_total exampleLabelFor exampleFromUserSettings ⟨none⟩).2 rfl).1⟩

/-- Claim C5: with a defined `contributes` object, each of the five
contribution sections — settings, commands, themes, JSON validation,
debuggers — is rendered exactly when its derived contribution list is
non-empty, its summary shows the length of that list, and the rendered rows
are in bijection with it (same length). -/
theorem contribution_sections_iff_nonempty (getLabelFor : KeybindingCode → String)
    (fromUserSettingsLabel : String → Int) (m : ExtensionManifest) (cbs : Contributes)
    (hm : m.contributes = some cbs) :
    (settingsKeys cbs = [] → renderSettings m = Except.ok none) ∧
    (settingsKeys cbs ≠ [] →
      renderSettings m = Except.ok (some ((settingsKeys cbs).length, settingsRows cbs)) ∧
      (settingsRows cbs).length = (settingsKeys cbs).length) ∧
    (commandRows getLabelFor fromUserSettingsLabel cbs = [] →
      renderCommands getLabelFor fromUserSettingsLabel m = Except.ok none) ∧
    (commandRows getLabelFor fromUserSettingsLabel cbs ≠ [] →
      renderCommands getLabelFor fromUserSettingsLabel m =
        Except.ok (some ((commandRows getLabelFor fromUserSettingsLabel cbs).length,
          commandRows getLabelFor fromUserSettingsLabel cbs))) ∧
    (themesContrib cbs = [] → renderThemes m = Except.ok none) ∧
    (themesContrib cbs ≠ [] →
      renderThemes m = Except.ok (some ((themesContrib cbs).length, themesRows cbs)) ∧
      (themesRows cbs).length = (themesContrib cbs).length) ∧
    (jsonValidationContrib cbs = [] → renderJSONValidation m = Except.ok none) ∧
    (jsonValidationContrib cbs ≠ [] →
      renderJSONValidation m =
        Except.ok (some ((jsonValidationContrib cbs).length, jsonValidationRows cbs)) ∧
      (jsonValidationRows cbs).length = (jsonValidationContrib cbs).length) ∧
    (debuggersContrib cbs = [] → renderDebuggers m = Except.ok none) ∧
    (debuggersContrib cbs ≠ [] →
      renderDebuggers m = Except.ok (some ((debuggersContrib cbs).length, debuggersRows cbs)) ∧
      (debuggersRows cbs).length = (debuggersContrib cbs).length) := by
  refine ⟨?_, ?_, ?_, ?_, ?_, ?_, ?_, ?_, ?_, ?_⟩
  · intro h
    rw [renderSettings_eq m cbs hm]
    simp [h]
  · intro h
    have hlen : (settingsKeys cbs).length ≠ 0 := by simpa [List.length_eq_zero] using h
    exact ⟨by rw [renderSettings_eq m cbs hm, if_neg hlen], by simp [settingsRows]⟩
  · intro h
    rw [renderCommands_eq getLabelFor fromUserSettingsLabel m cbs hm]
    simp [h]
  · intro h
    have hlen : (commandRows getLabelFor fromUserSettingsLabel cbs).length ≠ 0 := by
      simpa [List.length_eq_zero] using h
    rw [renderCommands_eq getLabelFor fromUserSettingsLabel m cbs hm, if_neg hlen]
  · intro h
    rw [renderThemes_eq m cbs hm]
    simp [h]
  · intro h
    have hlen : (themesContrib cbs).length ≠ 0 := by simpa [List.length_eq_zero] using h
    exact ⟨by rw [renderThemes_eq m cbs hm, if_neg hlen], by simp [themesRows]⟩
  · intro h
    rw [renderJSONValidation_eq m cbs hm]
    simp [h]
  · intro h
    have hlen : (jsonValidationContrib cbs).length ≠ 0 := by
      simpa [List.length_eq_zero] using h
    exact ⟨by rw [renderJSONValidation_eq m cbs hm, if_neg hlen], by simp [jsonValidationRows]⟩
  · intro h
    rw [renderDebuggers_eq m cbs hm]
    simp [h]
  · intro h
    have hlen : (debuggersContrib cbs).length ≠ 0 := by simpa [List.length_eq_zero] using h
    exact ⟨by rw [renderDebuggers_eq m cbs hm, if_neg hlen], by simp [debuggersRows]⟩

/-- Witness for C5: on the example manifest, the non-empty settings section
renders with its count, and the empty JSON validation section is skipped. -/
theorem contribution_sections_iff_nonempty_witness :
    (renderSettings exampleManifest =
      Except.ok (some ((settingsKeys exampleContributes).length,
        settingsRows exampleContributes)) ∧
      (settingsRows exampleContributes).length = (settingsKeys exampleContributes).length) ∧
    renderJSONValidation exampleManifest = Except.ok none :=
  ⟨(contribution_sections_iff_nonempty exampleLabelFor exampleFromUserSettings
      exampleManifest exampleContributes rfl).2.1 (by decide),
   (contribution_sections_iff_nonempty exampleLabelFor exampleFromUserSettings
      exampleManifest exampleContributes rfl).2.2.2.2.2.2.1 rfl⟩

/-- Claim C3: after every call to `setInput`, the navigation bar contains
exactly the two tabs "Details" (id `readme`) and "Contributions"
(id `contributions`); `onNavbarChange` dispatches the `readme` id to the
readme sub-panel (`openReadme`) and the `contributions` id to the
contributions sub-panel (`openContributions`), and any other id opens no
panel. -/
theorem setInput_two_tabs_dispatch (s : NavBarState) (other : String)
    (h1 : other ≠ NavbarSectionReadme) (h2 : other ≠ NavbarSectionContributions) :
    (setInputNavbar s).actions =
      [(NavbarSectionReadme, "Details"), (NavbarSectionContributions, "Contributions")] ∧
    onNavbarChange NavbarSectionReadme = some NavSection.readme ∧
    onNavbarChange NavbarSectionContributions = some NavSection.contributions ∧
    onNavbarChange other = none := by
  refine ⟨rfl, by decide, by decide, ?_⟩
  simp [onNavbarChange, h1, h2]

/-- Witness for C3 at a concrete prior navbar state and a concrete foreign
id. -/
theorem setInput_two_tabs_dispatch_witness :
    (setInputNavbar ⟨[("old", "Old")]⟩).actions =
      [(NavbarSectionReadme, "Details"), (NavbarSectionContributions, "Contributions")] ∧
    onNavbarChange NavbarSectionReadme = some NavSection.readme ∧
    onNavbarChange NavbarSectionContributions = some NavSection.contributions ∧
    onNavbarChange "settings" = none :=
  setInput_two_tabs_dispatch ⟨[("old", "Old")]⟩ "settings" (by decide) (by decide)

/-- Claim C4 (amended): the markdown-rendered README body is embedded verbatim
— unescaped and unmodified — into the HTML document handed to the webview;
`renderBody` performs no sanitization of its own. -/
theorem renderBody_embeds_body_verbatim (cssUrl body : String) :
    renderBody cssUrl body = renderBodyOpen cssUrl ++ body ++ renderBodyClose := rfl

/-- Counterexample to claim C4 as stated: for the rendered README body
`<script>alert(1)</script>`, the document handed to the webview contains that
script markup verbatim between the fixed template prefix and suffix — the
body reaches the webview unescaped, contradicting "active content contained
in the rendered README does not reach the webview unescaped". -/
theorem renderBody_script_reaches_webview :
    renderBody "markdown.css" "<script>alert(1)</script>" =
      renderBodyOpen "markdown.css" ++ "<script>alert(1)</script>" ++ renderBodyClose := rfl

/-- Claim C2: when `loadContents` runs while a previous load is still pending,
its first statement (disposing the registered content disposables) cancels
the pending promise, and only then — the composition equation — is the new
loading task begun; afterwards the new load is the only pending one. -/
theorem loadContents_cancels_pending (s : ViewState) (k newK : NavSection)
    (h : s.pending = some k) :
    (disposeContentDisposables s).pending = none ∧
    k ∈ (disposeContentDisposables s).cancelledLoads ∧
    loadContents newK s = startLoadingTask newK (clearContent (disposeContentDisposables s)) ∧
    (loadContents newK s).pending = some newK := by
  refine ⟨rfl, ?_, rfl, rfl⟩
  simp [disposeContentDisposables, h]

/-- Witness for C2: a pending readme load is cancelled when the contributions
load starts. -/
theorem loadContents_cancels_pending_witness :
    (disposeContentDisposables ⟨[], some NavSection.readme, []⟩).pending = none ∧
    NavSection.readme ∈ (disposeContentDisposables ⟨[], some NavSection.readme, []⟩).cancelledLoads ∧
    loadContents NavSection.contributions ⟨[], some NavSection.readme, []⟩ =
      startLoadingTask NavSection.contributions
        (clearContent (disposeContentDisposables ⟨[], some NavSection.readme, []⟩)) ∧
    (loadContents NavSection.contributions ⟨[], some NavSection.readme, []⟩).pending =
      some NavSection.contributions :=
  loadContents_cancels_pending ⟨[], some NavSection.readme, []⟩ NavSection.readme
    NavSection.contributions rfl

/-- Claim C8: `openReadme` never propagates an error — its overall promise
always resolves — and whenever the fetch, the markdown parse or the webview
display fails, what is rendered is the paragraph "No README available.". -/
theorem openReadme_handles_errors (cssUrl : String) (getReadme : Except Unit String)
    (markedParse : String → Except Unit String)
    (createWebview : String → Except Unit Unit) :
    (openReadme cssUrl getReadme markedParse createWebview).isOk = true ∧
    (getReadme = Except.error () →
      openReadme cssUrl getReadme markedParse createWebview =
        Except.ok (ReadmeOutcome.noReadmeShown "No README available.")) ∧
    (∀ raw, getReadme = Except.ok raw → markedParse raw = Except.error () →
      openReadme cssUrl getReadme markedParse createWebview =
        Except.ok (ReadmeOutcome.noReadmeShown "No README available.")) ∧
    (∀ raw parsed, getReadme = Except.ok raw → markedParse raw = Except.ok parsed →
      createWebview (renderBody cssUrl parsed) = Except.error () →
      openReadme cssUrl getReadme markedParse createWebview =
        Except.ok (ReadmeOutcome.noReadmeShown "No README available.")) := by
  refine ⟨?_, ?_, ?_, ?_⟩
  · cases hc : readmeChain cssUrl getReadme markedParse createWebview with
    | ok o => simp [openReadme, hc, Except.isOk, Except.toBool]
    | error e => simp [openReadme, hc, Except.isOk, Except.toBool]
  · intro h
    simp [openReadme, readmeChain, h]
  · intro raw h hp
    simp [openReadme, readmeChain, h, hp]
  · intro raw parsed h hp hw
    simp [openReadme, readmeChain, h, hp, hw]

/-- Witness for C8: a failing markdown parse still resolves, showing the
"No README available." paragraph. -/
theorem openReadme_handles_errors_witness :
    (openReadme "markdown.css" (Except.ok "raw") (fun _ => Except.error ())
      (fun _ => Except.ok ())).isOk = true ∧
    openReadme "markdown.css" (Except.ok "raw") (fun _ => Except.error ())
      (fun _ => Except.ok ()) =
      Except.ok (ReadmeOutcome.noReadmeShown "No README available.") :=
  ⟨(openReadme_handles_errors "markdown.css" (Except.ok "raw") (fun _ => Except.error ())
      (fun _ => Except.ok ())).1,
   (openReadme_handles_errors "markdown.css" (Except.ok "raw") (fun _ => Except.error ())
      (fun _ => Except.ok ())).2.2.1 "raw" rfl rfl⟩

/-! ### Properties of the command merge (`renderCommands`) -/

/-- Truthiness of `allCommands[i]` is membership of `i` among the row ids. -/
theorem hasId_iff (cs : List CommandRow) (i : String) :
    hasId cs i = true ↔ i ∈ rowIds cs := by
  simp [hasId, rowIds, List.any_eq_true, List.mem_map]

/-- Every element of `updateLast i f cs` is an element of `cs` or the image
under `f` of an element of `cs`. -/
theorem mem_updateLast (i : String) (f : CommandRow → CommandRow) :
    ∀ cs : List CommandRow, ∀ r ∈ updateLast i f cs, r ∈ cs ∨ ∃ c ∈ cs, r = f c := by
  intro cs
  induction cs with
  | nil => intro r hr; simp [updateLast] at hr
  | cons c cs ih =>
    intro r hr
    by_cases h1 : hasId cs i
    · rw [updateLast, if_pos h1] at hr
      rcases List.mem_cons.1 hr with rfl | hr
      · exact Or.inl (List.mem_cons_self _ _)
      · rcases ih r hr with h | ⟨c', hc', rfl⟩
        · exact Or.inl (List.mem_cons_of_mem _ h)
        · exact Or.inr ⟨c', List.mem_cons_of_mem _ hc', rfl⟩
    · rw [updateLast, if_neg h1] at hr
      by_cases h2 : c.id == i
      · rw [if_pos h2] at hr
        rcases List.mem_cons.1 hr with rfl | hr
        · exact Or.inr ⟨c, List.mem_cons_self _ _, rfl⟩
        · exact Or.inl (List.mem_cons_of_mem _ hr)
      · rw [if_neg h2] at hr
        exact Or.inl hr

/-- Every element of `cs` survives `updateLast i f cs`, either unchanged or
with `f` applied. -/
theorem updateLast_pointwise (i : String) (f : CommandRow → CommandRow) :
    ∀ cs : List CommandRow, ∀ r ∈ cs, r ∈ updateLast i f cs ∨ f r ∈ updateLast i f cs := by
  intro cs
  induction cs with
  | nil => intro r hr; simp at hr
  | cons c cs ih =>
    intro r hr
    by_cases h1 : hasId cs i
    · rw [updateLast, if_pos h1]
      rcases List.mem_cons.1 hr with rfl | hr
      · exact Or.inl (List.mem_cons_self _ _)
      · rcases ih r hr with h | h
        · exact Or.inl (List.mem_cons_of_mem _ h)
        · exact Or.inr (List.mem_cons_of_mem _ h)
    · rw [updateLast, if_neg h1]
      by_cases h2 : c.id == i
      · rw [if_pos h2]
        rcases List.mem_cons.1 hr with rfl | hr
        · exact Or.inr (List.mem_cons_self _ _)
        · exact Or.inl (List.mem_cons_of_mem _ hr)
      · rw [if_neg h2]
        exact Or.inl hr

/-- When some row carries id `i`, `updateLast` really applies `f` to a row
carrying id `i`. -/
theorem exists_updateLast_hit (i : String) (f : CommandRow → CommandRow) :
    ∀ cs : List CommandRow, i ∈ rowIds cs →
      ∃ c ∈ cs, c.id = i ∧ f c ∈ updateLast i f cs := by
  intro cs
  induction cs with
  | nil => intro h; simp [rowIds] at h
  | cons c cs ih =>
    intro h
    by_cases h1 : hasId cs i
    · obtain ⟨c', hc', hid, hmem⟩ := ih ((hasId_iff cs i).1 h1)
      refine ⟨c', List.mem_cons_of_mem _ hc', hid, ?_⟩
      rw [updateLast, if_pos h1]
      exact List.mem_cons_of_mem _ hmem
    · have hci : c.id = i := by
        rcases List.mem_cons.1 h with h' | h'
        · exact h'.symm
        · exact absurd ((hasId_iff cs i).2 h') (by simpa using h1)
      have h2 : (c.id == i) = true := beq_iff_eq.2 hci
      refine ⟨c, List.mem_cons_self _ _, hci, ?_⟩
      rw [updateLast, if_neg h1, if_pos h2]
      exact List.mem_cons_self _ _

/-- If `f` preserves ids, `updateLast` preserves the id list. -/
theorem rowIds_updateLast (i : String) (f : CommandRow → CommandRow)
    (hf : ∀ c, (f c).id = c.id) :
    ∀ cs : List CommandRow, rowIds (updateLast i f cs) = rowIds cs := by
  intro cs
  induction cs with
  | nil => rfl
  | cons c cs ih =>
    by_cases h1 : hasId cs i
    · rw [updateLast, if_pos h1]
      simp only [rowIds, List.map_cons] at ih ⊢
      rw [ih]
    · rw [updateLast, if_neg h1]
      by_cases h2 : c.id == i
      · rw [if_pos h2]
        simp only [rowIds, List.map_cons, hf]
      · rw [if_neg h2]

/-- Under distinct row ids, `updateLast i f` is the pointwise map applying
`f` exactly to the row with id `i`. -/
theorem updateLast_eq_map (i : String) (f : CommandRow → CommandRow) :
    ∀ cs : List CommandRow, (rowIds cs).Nodup → i ∈ rowIds cs →
      updateLast i f cs = cs.map (fun c => if c.id = i then f c else c) := by
  intro cs
  induction cs with
  | nil => intro _ h; simp [rowIds] at h
  | cons c cs ih =>
    intro hnd hmem
    have hnd' : (rowIds cs).Nodup := by
      simp only [rowIds, List.map_cons, List.nodup_cons] at hnd
      exact hnd.2
    have hhead : c.id ∉ rowIds cs := by
      simp only [rowIds, List.map_cons, List.nodup_cons] at hnd
      exact hnd.1
    by_cases htail : i ∈ rowIds cs
    · have h1 : hasId cs i = true := (hasId_iff cs i).2 htail
      have hci : c.id ≠ i := fun h => hhead (h ▸ htail)
      rw [updateLast, if_pos h1, List.map_cons, if_neg hci, ih hnd' htail]
    · have h1 : hasId cs i = false := by
        rcases Bool.eq_false_or_eq_true (hasId cs i) with h | h
        · exact absurd ((hasId_iff cs i).1 h) htail
        · exact h
      have hci : c.id = i := by
        rcases List.mem_cons.1 hmem with h' | h'
        · exact h'.symm
        · exact absurd h' htail
      have h2 : (c.id == i) = true := beq_iff_eq.2 hci
      rw [updateLast, if_neg (by simp [h1]), if_pos h2, List.map_cons, if_pos hci]
      congr 1
      have hrest : ∀ c' ∈ cs, (if c'.id = i then f c' else c') = c' := by
        intro c' hc'
        have hne : c'.id ≠ i := by
          intro h
          exact htail (h ▸ List.mem_map_of_mem CommandRow.id hc')
        simp [hne]
      rw [List.map_congr_left hrest]
      simp

/-- Membership in `newIds`: exactly the elements of the list outside the seen
ids. -/
theorem mem_newIds (i : String) :
    ∀ (l seen : List String), i ∈ newIds seen l ↔ i ∈ l ∧ i ∉ seen := by
  intro l
  induction l with
  | nil => intro seen; simp [newIds]
  | cons j l ih =>
    intro seen
    by_cases hj : j ∈ seen
    · rw [newIds, if_pos hj, ih seen]
      constructor
      · rintro ⟨hl, hs⟩
        exact ⟨List.mem_cons_of_mem _ hl, hs⟩
      · rintro ⟨hl, hs⟩
        rcases List.mem_cons.1 hl with rfl | hl
        · exact absurd hj hs
        · exact ⟨hl, hs⟩
    · rw [newIds, if_neg hj]
      constructor
      · intro h
        rcases List.mem_cons.1 h with rfl | h
        · exact ⟨List.mem_cons_self _ _, hj⟩
        · obtain ⟨hl, hs⟩ := (ih (seen ++ [j])).1 h
          exact ⟨List.mem_cons_of_mem _ hl, fun hm => hs (List.mem_append_left _ hm)⟩
      · rintro ⟨hl, hs⟩
        rcases List.mem_cons.1 hl with rfl | hl
        · exact List.mem_cons_self _ _
        · by_cases hij : i = j
          · subst hij
            exact List.mem_cons_self _ _
          · refine List.mem_cons_of_mem _ ((ih (seen ++ [j])).2 ⟨hl, fun hm => ?_⟩)
            rcases List.mem_append.1 hm with hm | hm
            · exact hs hm
            · exact hij (List.mem_singleton.1 hm)

/-- The fresh ids are pairwise distinct. -/
theorem nodup_newIds :
    ∀ (l seen : List String), (newIds seen l).Nodup := by
  intro l
  induction l with
  | nil => intro seen; simp [newIds]
  | cons j l ih =>
    intro seen
    by_cases hj : j ∈ seen
    · rw [newIds, if_pos hj]
      exact ih seen
    · rw [newIds, if_neg hj]
      refine List.nodup_cons.2 ⟨fun hmem => ?_, ih (seen ++ [j])⟩
      exact ((mem_newIds j l (seen ++ [j])).1 hmem).2
        (List.mem_append_right _ (List.mem_singleton.2 rfl))

/-- Unfolding of `menusFor` on one menu reference. -/
theorem menusFor_cons (i ctx cmd : String) (rest : List (String × String)) :
    menusFor i ((ctx, cmd) :: rest) =
      if cmd = i then ctx :: menusFor i rest else menusFor i rest := by
  by_cases h : cmd = i <;> simp [menusFor, List.filter_cons, h]

/-- A command referenced by no menu gets no menu contexts. -/
theorem menusFor_eq_nil (i : String) :
    ∀ mps : List (String × String), i ∉ mps.map Prod.snd → menusFor i mps = [] := by
  intro mps
  induction mps with
  | nil => intro _; rfl
  | cons p rest ih =>
    intro h
    obtain ⟨ctx, cmd⟩ := p
    rw [menusFor_cons, if_neg, ih]
    · intro hm
      exact h (List.mem_cons_of_mem _ hm)
    · intro he
      exact h (by simp [he])

/-- Unfolding of `kbLabelsFor` on one keybinding entry. -/
theorem kbLabelsFor_cons (getLabelFor : KeybindingCode → String)
    (fromUserSettingsLabel : String → Int) (i : String) (k : KeybindingContrib)
    (ks : List KeybindingContrib) :
    kbLabelsFor getLabelFor fromUserSettingsLabel i (k :: ks) =
      if k.command = i then
        keybindingLabel getLabelFor fromUserSettingsLabel k ::
          kbLabelsFor getLabelFor fromUserSettingsLabel i ks
      else kbLabelsFor getLabelFor fromUserSettingsLabel i ks := by
  by_cases h : k.command = i <;> simp [kbLabelsFor, List.filter_cons, h]

/-- A command referenced by no keybinding entry gets no keybinding labels. -/
theorem kbLabelsFor_eq_nil (getLabelFor : KeybindingCode → String)
    (fromUserSettingsLabel : String → Int) (i : String) :
    ∀ ks : List KeybindingContrib, i ∉ ks.map KeybindingContrib.command →
      kbLabelsFor getLabelFor fromUserSettingsLabel i ks = [] := by
  intro ks
  induction ks with
  | nil => intro _; rfl
  | cons k rest ih =>
    intro h
    rw [kbLabelsFor_cons, if_neg, ih]
    · intro hm
      exact h (List.mem_cons_of_mem _ hm)
    · intro he
      exact h (by simp [he])

/-- Closed form of the menus pass: under distinct row ids, each existing row
collects the contexts referencing its id, and one fresh empty-title row per
first-seen new id is appended, in first-appearance order. -/
theorem foldl_stepMenu_eq :
    ∀ (mps : List (String × String)) (cs : List CommandRow), (rowIds cs).Nodup →
      List.foldl stepMenu cs mps =
        cs.map (fun c => { c with menus := c.menus ++ menusFor c.id mps }) ++
        (newIds (rowIds cs) (mps.map Prod.snd)).map
          (fun i => ⟨i, "", [], menusFor i mps⟩) := by
  intro mps
  induction mps with
  | nil =>
    intro cs _
    rw [List.foldl_nil]
    have h1 : cs.map (fun c => { c with menus := c.menus ++ menusFor c.id [] }) = cs := by
      rw [List.map_congr_left (g := fun c => c) (fun c _ => by simp [menusFor])]
      simp
    simp [h1, newIds]
  | cons p mps ih =>
    intro cs hnd
    obtain ⟨ctx, cmd⟩ := p
    rw [List.foldl_cons]
    by_cases hmem : cmd ∈ rowIds cs
    · have hstep : stepMenu cs (ctx, cmd) =
          cs.map (fun c => if c.id = cmd then { c with menus := c.menus ++ [ctx] } else c) := by
        rw [stepMenu, if_pos ((hasId_iff cs cmd).2 hmem)]
        exact updateLast_eq_map cmd _ cs hnd hmem
      have hids : rowIds (cs.map
          (fun c => if c.id = cmd then { c with menus := c.menus ++ [ctx] } else c)) =
          rowIds cs := by
        simp only [rowIds, List.map_map]
        apply List.map_congr_left
        intro c _
        by_cases h : c.id = cmd <;> simp [h]
      rw [hstep, ih _ (by rw [hids]; exact hnd)]
      have hA : (cs.map
          (fun c => if c.id = cmd then { c with menus := c.menus ++ [ctx] } else c)).map
            (fun c => { c with menus := c.menus ++ menusFor c.id mps }) =
          cs.map (fun c => { c with menus := c.menus ++ menusFor c.id ((ctx, cmd) :: mps) }) := by
        rw [List.map_map]
        apply List.map_congr_left
        intro c _
        by_cases h : c.id = cmd
        · simp [Function.comp, h, menusFor_cons]
        · have hne : cmd ≠ c.id := fun hh => h hh.symm
          simp [Function.comp, h, menusFor_cons, hne]
      have hB : (newIds (rowIds (cs.map
          (fun c => if c.id = cmd then { c with menus := c.menus ++ [ctx] } else c)))
            (mps.map Prod.snd)).map (fun i => (⟨i, "", [], menusFor i mps⟩ : CommandRow)) =
          (newIds (rowIds cs) (((ctx, cmd) :: mps).map Prod.snd)).map
            (fun i => ⟨i, "", [], menusFor i ((ctx, cmd) :: mps)⟩) := by
        rw [hids]
        have hcons : ((ctx, cmd) :: mps).map Prod.snd = cmd :: mps.map Prod.snd := rfl
        rw [hcons, newIds, if_pos hmem]
        apply List.map_congr_left
        intro i hi
        have hne : cmd ≠ i := by
          intro h
          exact ((mem_newIds i (mps.map Prod.snd) (rowIds cs)).1 hi).2 (h ▸ hmem)
        rw [menusFor_cons, if_neg hne]
      rw [hA, hB]
    · have hnot : ¬ (hasId cs (ctx, cmd).2 = true) := fun h => hmem ((hasId_iff cs cmd).1 h)
      have hstep : stepMenu cs (ctx, cmd) = cs ++ [⟨cmd, "", [], [ctx]⟩] := by
        rw [stepMenu, if_neg hnot]
      have hids : rowIds (cs ++ [(⟨cmd, "", [], [ctx]⟩ : CommandRow)]) = rowIds cs ++ [cmd] := by
        simp [rowIds]
      have hnd' : (rowIds (cs ++ [(⟨cmd, "", [], [ctx]⟩ : CommandRow)])).Nodup := by
        rw [hids]
        refine List.Nodup.append hnd (List.nodup_singleton cmd) ?_
        intro a ha hb
        rw [List.mem_singleton.1 hb] at ha
        exact hmem ha
      rw [hstep, ih _ hnd']
      have hA : (cs ++ [(⟨cmd, "", [], [ctx]⟩ : CommandRow)]).map
            (fun c => { c with menus := c.menus ++ menusFor c.id mps }) =
          cs.map (fun c => { c with menus := c.menus ++ menusFor c.id ((ctx, cmd) :: mps) }) ++
            [⟨cmd, "", [], menusFor cmd ((ctx, cmd) :: mps)⟩] := by
        rw [List.map_append]
        have hcs : cs.map (fun c => { c with menus := c.menus ++ menusFor c.id mps }) =
            cs.map (fun c => { c with menus := c.menus ++ menusFor c.id ((ctx, cmd) :: mps) }) := by
          apply List.map_congr_left
          intro c hc
          have hne : cmd ≠ c.id := by
            intro h
            exact hmem (h ▸ List.mem_map_of_mem CommandRow.id hc)
          rw [menusFor_cons, if_neg hne]
        rw [hcs]
        simp [menusFor_cons]
      have hB : (newIds (rowIds cs ++ [cmd]) (mps.map Prod.snd)).map
            (fun i => (⟨i, "", [], menusFor i mps⟩ : CommandRow)) =
          (newIds (rowIds cs ++ [cmd]) (mps.map Prod.snd)).map
            (fun i => ⟨i, "", [], menusFor i ((ctx, cmd) :: mps)⟩) := by
        apply List.map_congr_left
        intro i hi
        have hne : cmd ≠ i := by
          intro h
          exact ((mem_newIds i (mps.map Prod.snd) (rowIds cs ++ [cmd])).1 hi).2
            (List.mem_append_right _ (by simp [h]))
        rw [menusFor_cons, if_neg hne]
      have hcons : ((ctx, cmd) :: mps).map Prod.snd = cmd :: mps.map Prod.snd := rfl
      rw [hids, hA, hB, hcons, newIds, if_neg hmem, List.map_cons]
      rw [menusFor_cons, if_pos rfl]
      simp [List.append_assoc]

/-- Closed form of the keybindings pass: under distinct row ids, each existing
row collects the resolved labels of the entries referencing its id, and one
fresh empty-title row per first-seen new id is appended, in first-appearance
order. -/
theorem foldl_stepKeybinding_eq (gl : KeybindingCode → String) (fu : String → Int) :
    ∀ (ks : List KeybindingContrib) (cs : List CommandRow), (rowIds cs).Nodup →
      List.foldl (stepKeybinding gl fu) cs ks =
        cs.map (fun c => { c with keybindings := c.keybindings ++ kbLabelsFor gl fu c.id ks }) ++
        (newIds (rowIds cs) (ks.map KeybindingContrib.command)).map
          (fun i => ⟨i, "", kbLabelsFor gl fu i ks, []⟩) := by
  intro ks
  induction ks with
  | nil =>
    intro cs _
    rw [List.foldl_nil]
    have h1 : cs.map (fun c => { c with keybindings := c.keybindings ++ kbLabelsFor gl fu c.id [] }) = cs := by
      rw [List.map_congr_left (g := fun c => c) (fun c _ => by simp [kbLabelsFor])]
      simp
    simp [h1, newIds]
  | cons k ks ih =>
    intro cs hnd
    rw [List.foldl_cons]
    by_cases hmem : k.command ∈ rowIds cs
    · have hstep : stepKeybinding gl fu cs k =
          cs.map (fun c => if c.id = k.command then { c with keybindings := c.keybindings ++ [keybindingLabel gl fu k] } else c) := by
        simp only [stepKeybinding]
        rw [if_pos ((hasId_iff cs k.command).2 hmem)]
        exact updateLast_eq_map k.command _ cs hnd hmem
      have hids : rowIds (cs.map
          (fun c => if c.id = k.command then { c with keybindings := c.keybindings ++ [keybindingLabel gl fu k] } else c)) = rowIds cs := by
        simp only [rowIds, List.map_map]
        apply List.map_congr_left
        intro c _
        by_cases h : c.id = k.command <;> simp [h]
      rw [hstep, ih _ (by rw [hids]; exact hnd)]
      have hA : (cs.map
          (fun c => if c.id = k.command then { c with keybindings := c.keybindings ++ [keybindingLabel gl fu k] } else c)).map
            (fun c => { c with keybindings := c.keybindings ++ kbLabelsFor gl fu c.id ks }) =
          cs.map (fun c => { c with keybindings := c.keybindings ++ kbLabelsFor gl fu c.id (k :: ks) }) := by
        rw [List.map_map]
        apply List.map_congr_left
        intro c _
        by_cases h : c.id = k.command
        · simp [Function.comp, h, kbLabelsFor_cons]
        · have hne : k.command ≠ c.id := fun hh => h hh.symm
          simp [Function.comp, h, kbLabelsFor_cons, hne]
      have hB : (newIds (rowIds (cs.map
          (fun c => if c.id = k.command then { c with keybindings := c.keybindings ++ [keybindingLabel gl fu k] } else c)))
            (ks.map KeybindingContrib.command)).map
            (fun i => (⟨i, "", kbLabelsFor gl fu i ks, []⟩ : CommandRow)) =
          (newIds (rowIds cs) ((k :: ks).map KeybindingContrib.command)).map
            (fun i => ⟨i, "", kbLabelsFor gl fu i (k :: ks), []⟩) := by
        rw [hids]
        have hcons : (k :: ks).map KeybindingContrib.command =
            k.command :: ks.map KeybindingContrib.command := rfl
        rw [hcons, newIds, if_pos hmem]
        apply List.map_congr_left
        intro i hi
        have hne : k.command ≠ i := by
          intro h
          exact ((mem_newIds i (ks.map KeybindingContrib.command) (rowIds cs)).1 hi).2
            (h ▸ hmem)
        rw [kbLabelsFor_cons, if_neg hne]
      rw [hA, hB]
    · have hnot : ¬ (hasId cs k.command = true) := fun h => hmem ((hasId_iff cs k.command).1 h)
      have hstep : stepKeybinding gl fu cs k =
          cs ++ [⟨k.command, "", [keybindingLabel gl fu k], []⟩] := by
        simp only [stepKeybinding]
        rw [if_neg hnot]
      have hids : rowIds (cs ++
          [(⟨k.command, "", [keybindingLabel gl fu k], []⟩ : CommandRow)]) =
          rowIds cs ++ [k.command] := by
        simp [rowIds]
      have hnd' : (rowIds (cs ++
          [(⟨k.command, "", [keybindingLabel gl fu k], []⟩ : CommandRow)])).Nodup := by
        rw [hids]
        refine List.Nodup.append hnd (List.nodup_singleton k.command) ?_
        intro a ha hb
        rw [List.mem_singleton.1 hb] at ha
        exact hmem ha
      rw [hstep, ih _ hnd']
      have hA : (cs ++
          [(⟨k.command, "", [keybindingLabel gl fu k], []⟩ : CommandRow)]).map
            (fun c => { c with keybindings := c.keybindings ++ kbLabelsFor gl fu c.id ks }) =
          cs.map (fun c => { c with keybindings := c.keybindings ++ kbLabelsFor gl fu c.id (k :: ks) }) ++
            [⟨k.command, "", kbLabelsFor gl fu k.command (k :: ks), []⟩] := by
        rw [List.map_append]
        have hcs : cs.map (fun c => { c with keybindings := c.keybindings ++ kbLabelsFor gl fu c.id ks }) =
            cs.map (fun c => { c with keybindings := c.keybindings ++ kbLabelsFor gl fu c.id (k :: ks) }) := by
          apply List.map_congr_left
          intro c hc
          have hne : k.command ≠ c.id := by
            intro h
            exact hmem (h ▸ List.mem_map_of_mem CommandRow.id hc)
          rw [kbLabelsFor_cons, if_neg hne]
        rw [hcs]
        simp [kbLabelsFor_cons]
      have hB : (newIds (rowIds cs ++ [k.command]) (ks.map KeybindingContrib.command)).map
            (fun i => (⟨i, "", kbLabelsFor gl fu i ks, []⟩ : CommandRow)) =
          (newIds (rowIds cs ++ [k.command]) (ks.map KeybindingContrib.command)).map
            (fun i => ⟨i, "", kbLabelsFor gl fu i (k :: ks), []⟩) := by
        apply List.map_congr_left
        intro i hi
        have hne : k.command ≠ i := by
          intro h
          exact ((mem_newIds i (ks.map KeybindingContrib.command)
            (rowIds cs ++ [k.command])).1 hi).2
            (List.mem_append_right _ (by simp [h]))
        rw [kbLabelsFor_cons, if_neg hne]
      have hcons : (k :: ks).map KeybindingContrib.command =
          k.command :: ks.map KeybindingContrib.command := rfl
      rw [hids, hA, hB, hcons, newIds, if_neg hmem, List.map_cons]
      rw [kbLabelsFor_cons, if_pos rfl]
      simp [List.append_assoc]

/-- The image of the row ids under an id-preserving map is unchanged. -/
theorem rowIds_map_preserve (f : CommandRow → CommandRow) (hf : ∀ c, (f c).id = c.id)
    (cs : List CommandRow) : rowIds (cs.map f) = rowIds cs := by
  simp only [rowIds, List.map_map]
  exact List.map_congr_left (fun c _ => hf c)

/-- Composition of the two passes over an arbitrary starting array with
distinct ids. -/
theorem foldl_menu_then_kb (gl : KeybindingCode → String) (fu : String → Int)
    (mps : List (String × String)) (ks : List KeybindingContrib)
    (base : List CommandRow) (hnd : (rowIds base).Nodup) :
    List.foldl (stepKeybinding gl fu) (List.foldl stepMenu base mps) ks =
      base.map (fun c => { c with keybindings := c.keybindings ++ kbLabelsFor gl fu c.id ks, menus := c.menus ++ menusFor c.id mps }) ++
      (newIds (rowIds base) (mps.map Prod.snd)).map
        (fun i => ⟨i, "", kbLabelsFor gl fu i ks, menusFor i mps⟩) ++
      (newIds (rowIds base ++ newIds (rowIds base) (mps.map Prod.snd))
        (ks.map KeybindingContrib.command)).map
        (fun i => ⟨i, "", kbLabelsFor gl fu i ks, []⟩) := by
  rw [foldl_stepMenu_eq mps base hnd]
  have hidsA : rowIds (base.map (fun c => { c with menus := c.menus ++ menusFor c.id mps })) =
      rowIds base :=
    rowIds_map_preserve (fun c => { c with menus := c.menus ++ menusFor c.id mps })
      (fun c => rfl) base
  have hidsB : rowIds ((newIds (rowIds base) (mps.map Prod.snd)).map
      (fun i => (⟨i, "", [], menusFor i mps⟩ : CommandRow))) =
      newIds (rowIds base) (mps.map Prod.snd) := by
    simp only [rowIds, List.map_map]
    exact List.map_id _
  have hids : rowIds (base.map (fun c => { c with menus := c.menus ++ menusFor c.id mps }) ++
      (newIds (rowIds base) (mps.map Prod.snd)).map
        (fun i => (⟨i, "", [], menusFor i mps⟩ : CommandRow))) =
      rowIds base ++ newIds (rowIds base) (mps.map Prod.snd) := by
    simp only [rowIds, List.map_append] at hidsA hidsB ⊢
    rw [hidsA, hidsB]
  have hnd2 : (rowIds (base.map (fun c => { c with menus := c.menus ++ menusFor c.id mps }) ++
      (newIds (rowIds base) (mps.map Prod.snd)).map
        (fun i => (⟨i, "", [], menusFor i mps⟩ : CommandRow)))).Nodup := by
    rw [hids]
    refine List.Nodup.append hnd (nodup_newIds _ _) ?_
    intro a ha hb
    exact ((mem_newIds a (mps.map Prod.snd) (rowIds base)).1 hb).2 ha
  rw [foldl_stepKeybinding_eq gl fu ks _ hnd2, hids, List.map_append]
  have hA : (base.map (fun c => { c with menus := c.menus ++ menusFor c.id mps })).map
        (fun c => { c with keybindings := c.keybindings ++ kbLabelsFor gl fu c.id ks }) =
      base.map (fun c => { c with keybindings := c.keybindings ++ kbLabelsFor gl fu c.id ks, menus := c.menus ++ menusFor c.id mps }) := by
    rw [List.map_map]
    exact List.map_congr_left (fun c _ => rfl)
  have hB : ((newIds (rowIds base) (mps.map Prod.snd)).map
        (fun i => (⟨i, "", [], menusFor i mps⟩ : CommandRow))).map
        (fun c => { c with keybindings := c.keybindings ++ kbLabelsFor gl fu c.id ks }) =
      (newIds (rowIds base) (mps.map Prod.snd)).map
        (fun i => ⟨i, "", kbLabelsFor gl fu i ks, menusFor i mps⟩) := by
    rw [List.map_map]
    exact List.map_congr_left (fun i _ => rfl)
  rw [hA, hB, List.append_assoc]

/-- Closed form of the whole command merge, assuming the declared command ids
are pairwise distinct: one row per declared command, carrying its title and
aggregating its keybinding labels and menu contexts; then one empty-title row
per command id first referenced by a menu, in first-appearance order; then
one empty-title row per command id first referenced by a keybinding entry. -/
theorem commandRows_eq (gl : KeybindingCode → String) (fu : String → Int)
    (cbs : Contributes) (h : (declaredIds cbs).Nodup) :
    commandRows gl fu cbs =
      (cbs.commands.getD []).map (fun c =>
        (⟨c.command, c.title, kbLabelsFor gl fu c.command (cbs.keybindings.getD []),
          menusFor c.command (menuPairs cbs)⟩ : CommandRow)) ++
      (newIds (declaredIds cbs) ((menuPairs cbs).map Prod.snd)).map (fun i =>
        ⟨i, "", kbLabelsFor gl fu i (cbs.keybindings.getD []), menusFor i (menuPairs cbs)⟩) ++
      (newIds (declaredIds cbs ++ newIds (declaredIds cbs) ((menuPairs cbs).map Prod.snd))
        ((cbs.keybindings.getD []).map KeybindingContrib.command)).map (fun i =>
        ⟨i, "", kbLabelsFor gl fu i (cbs.keybindings.getD []), []⟩) := by
  have hbase : rowIds ((cbs.commands.getD []).map
      (fun c => (⟨c.command, c.title, [], []⟩ : CommandRow))) = declaredIds cbs := by
    simp only [rowIds, declaredIds, List.map_map]
    exact List.map_congr_left (fun c _ => rfl)
  have hstart : commandRows gl fu cbs =
      List.foldl (stepKeybinding gl fu)
        (List.foldl stepMenu ((cbs.commands.getD []).map
          (fun c => (⟨c.command, c.title, [], []⟩ : CommandRow))) (menuPairs cbs))
        (cbs.keybindings.getD []) := rfl
  rw [hstart, foldl_menu_then_kb gl fu (menuPairs cbs) (cbs.keybindings.getD []) _
    (by rw [hbase]; exact h), hbase]
  have hA : ((cbs.commands.getD []).map
      (fun c => (⟨c.command, c.title, [], []⟩ : CommandRow))).map
        (fun c => { c with keybindings := c.keybindings ++ kbLabelsFor gl fu c.id (cbs.keybindings.getD []), menus := c.menus ++ menusFor c.id (menuPairs cbs) }) =
      (cbs.commands.getD []).map (fun c =>
        (⟨c.command, c.title, kbLabelsFor gl fu c.command (cbs.keybindings.getD []),
          menusFor c.command (menuPairs cbs)⟩ : CommandRow)) := by
    rw [List.map_map]
    exact List.map_congr_left (fun c _ => rfl)
  rw [hA, List.append_assoc]

/-- The menus pass never touches the `keybindings` field. -/
theorem stepMenu_keybindings_nil (cs : List CommandRow) (p : String × String)
    (h : ∀ r ∈ cs, r.keybindings = []) : ∀ r ∈ stepMenu cs p, r.keybindings = [] := by
  intro r hr
  rw [stepMenu] at hr
  by_cases hb : hasId cs p.2
  · rw [if_pos hb] at hr
    rcases mem_updateLast _ _ cs r hr with h' | ⟨c, hc, rfl⟩
    · exact h r h'
    · exact h c hc
  · rw [if_neg hb] at hr
    rcases List.mem_append.1 hr with h' | h'
    · exact h r h'
    · simp [List.mem_singleton.1 h']

/-- After the whole menus pass every row still has empty `keybindings`. -/
theorem foldl_stepMenu_keybindings_nil :
    ∀ (mps : List (String × String)) (cs : List CommandRow),
      (∀ r ∈ cs, r.keybindings = []) →
      ∀ r ∈ List.foldl stepMenu cs mps, r.keybindings = [] := by
  intro mps
  induction mps with
  | nil => intro cs h; simpa using h
  | cons p mps ih =>
    intro cs h
    rw [List.foldl_cons]
    exact ih _ (stepMenu_keybindings_nil cs p h)

/-- Every label the keybindings pass puts into a row satisfies any predicate
holding for all resolved entry labels (soundness of the delegation). -/
theorem foldl_stepKeybinding_sound (gl : KeybindingCode → String) (fu : String → Int)
    (P : String → Prop) :
    ∀ (ks : List KeybindingContrib) (cs : List CommandRow),
      (∀ r ∈ cs, ∀ s ∈ r.keybindings, P s) →
      (∀ k ∈ ks, P (keybindingLabel gl fu k)) →
      ∀ r ∈ List.foldl (stepKeybinding gl fu) cs ks, ∀ s ∈ r.keybindings, P s := by
  intro ks
  induction ks with
  | nil => intro cs h _; simpa using h
  | cons k ks ih =>
    intro cs h hk
    rw [List.foldl_cons]
    refine ih _ ?_ (fun k' hk' => hk k' (List.mem_cons_of_mem _ hk'))
    intro r hr s hs
    simp only [stepKeybinding] at hr
    by_cases hb : hasId cs k.command
    · rw [if_pos hb] at hr
      rcases mem_updateLast _ _ cs r hr with h' | ⟨c, hc, rfl⟩
      · exact h r h' s hs
      · rcases List.mem_append.1 hs with hs' | hs'
        · exact h c hc s hs'
        · rw [List.mem_singleton.1 hs']
          exact hk k (List.mem_cons_self _ _)
    · rw [if_neg hb] at hr
      rcases List.mem_append.1 hr with h' | h'
      · exact h r h' s hs
      · rw [List.mem_singleton.1 h'] at hs
        have hss : s = keybindingLabel gl fu k := List.mem_singleton.1 hs
        rw [hss]
        exact hk k (List.mem_cons_self _ _)

/-- One keybindings step never loses an id / label pair already present. -/
theorem stepKeybinding_keeps (gl : KeybindingCode → String) (fu : String → Int)
    (cs : List CommandRow) (k : KeybindingContrib) (j s : String)
    (h : ∃ r ∈ cs, r.id = j ∧ s ∈ r.keybindings) :
    ∃ r ∈ stepKeybinding gl fu cs k, r.id = j ∧ s ∈ r.keybindings := by
  obtain ⟨r, hr, hid, hs⟩ := h
  simp only [stepKeybinding]
  by_cases hb : hasId cs k.command
  · rw [if_pos hb]
    rcases updateLast_pointwise k.command _ cs r hr with h' | h'
    · exact ⟨r, h', hid, hs⟩
    · exact ⟨_, h', hid, List.mem_append_left _ hs⟩
  · rw [if_neg hb]
    exact ⟨r, List.mem_append_left _ hr, hid, hs⟩

/-- The whole keybindings pass never loses an id / label pair already
present. -/
theorem foldl_stepKeybinding_keeps (gl : KeybindingCode → String) (fu : String → Int) :
    ∀ (ks : List KeybindingContrib) (cs : List CommandRow) (j s : String),
      (∃ r ∈ cs, r.id = j ∧ s ∈ r.keybindings) →
      ∃ r ∈ List.foldl (stepKeybinding gl fu) cs ks, r.id = j ∧ s ∈ r.keybindings := by
  intro ks
  induction ks with
  | nil => intro cs j s h; simpa using h
  | cons k ks ih =>
    intro cs j s h
    rw [List.foldl_cons]
    exact ih _ j s (stepKeybinding_keeps gl fu cs k j s h)

/-- Processing one entry makes its resolved label appear in a row carrying its
command id. -/
theorem stepKeybinding_adds (gl : KeybindingCode → String) (fu : String → Int)
    (cs : List CommandRow) (k : KeybindingContrib) :
    ∃ r ∈ stepKeybinding gl fu cs k, r.id = k.command ∧
      keybindingLabel gl fu k ∈ r.keybindings := by
  simp only [stepKeybinding]
  by_cases hb : hasId cs k.command
  · rw [if_pos hb]
    obtain ⟨c, hc, hid, hmem⟩ :=
      exists_updateLast_hit k.command _ cs ((hasId_iff cs k.command).1 hb)
    exact ⟨_, hmem, hid, List.mem_append_right _ (List.mem_singleton.2 rfl)⟩
  · rw [if_neg hb]
    exact ⟨⟨k.command, "", [keybindingLabel gl fu k], []⟩,
      List.mem_append_right _ (List.mem_singleton.2 rfl), rfl, List.mem_singleton.2 rfl⟩

/-- Every entry of the keybindings array ends up displayed: some row carries
its command id and its resolved label. -/
theorem foldl_stepKeybinding_complete (gl : KeybindingCode → String) (fu : String → Int) :
    ∀ (ks : List KeybindingContrib) (cs : List CommandRow) (k : KeybindingContrib), k ∈ ks →
      ∃ r ∈ List.foldl (stepKeybinding gl fu) cs ks, r.id = k.command ∧
        keybindingLabel gl fu k ∈ r.keybindings := by
  intro ks
  induction ks with
  | nil => intro cs k h; simp at h
  | cons k0 ks ih =>
    intro cs k hk
    rw [List.foldl_cons]
    rcases List.mem_cons.1 hk with rfl | hk'
    · exact foldl_stepKeybinding_keeps gl fu ks _ k.command (keybindingLabel gl fu k)
        (stepKeybinding_adds gl fu cs k)
    · exact ih _ k hk'

/-- Claim C6: every keyboard shortcut displayed in the Commands table is the
value of the external `keybindingService.getLabelFor` applied to the
`Keybinding` built by the external `Keybinding.fromUserSettingsLabel` from
some keybinding entry's `key` string (first conjunct), and conversely every
entry's resolved label is displayed in a row carrying its command id (second
conjunct); the component itself does no keybinding resolution — both services
are arbitrary parameters `gl` and `fu` here. -/
theorem keybinding_labels_delegated (gl : KeybindingCode → String) (fu : String → Int)
    (m : ExtensionManifest) (cbs : Contributes) (n : Nat) (rows : List CommandRow)
    (hm : m.contributes = some cbs)
    (hr : renderCommands gl fu m = Except.ok (some (n, rows))) :
    (rows.all (fun r => r.keybindings.all (fun s =>
      (cbs.keybindings.getD []).any (fun k => s == keybindingLabel gl fu k))) = true) ∧
    ((cbs.keybindings.getD []).all (fun k => rows.any (fun r =>
      r.id == k.command && r.keybindings.contains (keybindingLabel gl fu k))) = true) := by
  rw [renderCommands_eq gl fu m cbs hm] at hr
  by_cases hz : (commandRows gl fu cbs).length = 0
  · rw [if_pos hz] at hr
    simp at hr
  · rw [if_neg hz] at hr
    have hrows : commandRows gl fu cbs = rows := by
      have := hr
      simp only [Except.ok.injEq, Option.some.injEq, Prod.mk.injEq] at this
      exact this.2
    have hre : commandRows gl fu cbs =
        List.foldl (stepKeybinding gl fu)
          (List.foldl stepMenu ((cbs.commands.getD []).map
            (fun c => (⟨c.command, c.title, [], []⟩ : CommandRow))) (menuPairs cbs))
          (cbs.keybindings.getD []) := rfl
    have hnil : ∀ r ∈ List.foldl stepMenu ((cbs.commands.getD []).map
        (fun c => (⟨c.command, c.title, [], []⟩ : CommandRow))) (menuPairs cbs),
        r.keybindings = [] := by
      apply foldl_stepMenu_keybindings_nil
      intro r hrr
      obtain ⟨c, _, rfl⟩ := List.mem_map.1 hrr
      rfl
    constructor
    · rw [List.all_eq_true]
      intro r hrr
      rw [List.all_eq_true]
      intro s hss
      rw [List.any_eq_true]
      have hsound := foldl_stepKeybinding_sound gl fu
        (fun s => ∃ k ∈ cbs.keybindings.getD [], s = keybindingLabel gl fu k)
        (cbs.keybindings.getD []) _
        (fun r hrm s hsm => by rw [hnil r hrm] at hsm; simp at hsm)
        (fun k hk => ⟨k, hk, rfl⟩)
        r (by rw [← hre, hrows]; exact hrr) s hss
      obtain ⟨k, hk, rfl⟩ := hsound
      exact ⟨k, hk, by simp⟩
    · rw [List.all_eq_true]
      intro k hk
      rw [List.any_eq_true]
      obtain ⟨r, hrr, hid, hsmem⟩ :=
        foldl_stepKeybinding_complete gl fu (cbs.keybindings.getD []) _ k hk
      refine ⟨r, ?_, ?_⟩
      · rw [← hrows, hre]
        exact hrr
      · simp only [Bool.and_eq_true, beq_iff_eq]
        exact ⟨hid, by simpa [List.contains_iff_exists_mem_beq] using hsmem⟩

/-- Witness for C6 at the example manifest and concrete stand-ins for both
external keybinding services. -/
theorem keybinding_labels_delegated_witness :
    ((commandRows exampleLabelFor exampleFromUserSettings exampleContributes).all
      (fun r => r.keybindings.all (fun s =>
        (exampleContributes.keybindings.getD []).any (fun k =>
          s == keybindingLabel exampleLabelFor exampleFromUserSettings k))) = true) ∧
    ((exampleContributes.keybindings.getD []).all (fun k =>
      (commandRows exampleLabelFor exampleFromUserSettings exampleContributes).any (fun r =>
        r.id == k.command && r.keybindings.contains
          (keybindingLabel exampleLabelFor exampleFromUserSettings k))) = true) :=
  keybinding_labels_delegated exampleLabelFor exampleFromUserSettings exampleManifest
    exampleContributes
    (commandRows exampleLabelFor exampleFromUserSettings exampleContributes).length
    (commandRows exampleLabelFor exampleFromUserSettings exampleContributes)
    rfl rfl

/-- Mapping the id projection over rows built from ids gives back the ids. -/
theorem map_rowId_of (g : String → CommandRow) (hg : ∀ i, (g i).id = i) :
    ∀ l : List String, List.map (CommandRow.id ∘ g) l = l := by
  intro l
  induction l with
  | nil => rfl
  | cons a l ih =>
    rw [List.map_cons, ih]
    show (g a).id :: l = a :: l
    rw [hg a]

/-- Claim C9 (amended): provided the command ids declared in
`contributes.commands` are pairwise distinct, every command id appears in
exactly one row of the rendered Commands table: the row ids are distinct and
cover exactly the ids declared or referenced by menus or keybindings; a
declared command keeps its title and aggregates all its resolved keybinding
labels and all menu contexts referencing it in one row; an id only referenced
by menus or keybindings gets a row with empty title; every row aggregates
exactly the labels and contexts for its id; and the count in the section
header equals the number of rows, which is the number of distinct ids. -/
theorem commands_merge_unique (gl : KeybindingCode → String) (fu : String → Int)
    (m : ExtensionManifest) (cbs : Contributes)
    (hm : m.contributes = some cbs) (h : (declaredIds cbs).Nodup) :
    (rowIds (commandRows gl fu cbs)).Nodup ∧
    (∀ i, i ∈ rowIds (commandRows gl fu cbs) ↔
      i ∈ declaredIds cbs ∨ i ∈ (menuPairs cbs).map Prod.snd ∨
        i ∈ (cbs.keybindings.getD []).map KeybindingContrib.command) ∧
    (∀ c ∈ cbs.commands.getD [],
      (⟨c.command, c.title, kbLabelsFor gl fu c.command (cbs.keybindings.getD []),
        menusFor c.command (menuPairs cbs)⟩ : CommandRow) ∈ commandRows gl fu cbs) ∧
    (∀ r ∈ commandRows gl fu cbs, r.id ∉ declaredIds cbs → r.title = "") ∧
    (∀ r ∈ commandRows gl fu cbs,
      r.keybindings = kbLabelsFor gl fu r.id (cbs.keybindings.getD []) ∧
      r.menus = menusFor r.id (menuPairs cbs)) ∧
    ((commandRows gl fu cbs).length = (rowIds (commandRows gl fu cbs)).length) ∧
    (commandRows gl fu cbs ≠ [] →
      renderCommands gl fu m =
        Except.ok (some ((commandRows gl fu cbs).length, commandRows gl fu cbs))) := by
  have hR := commandRows_eq gl fu cbs h
  have hids : rowIds (commandRows gl fu cbs) =
      declaredIds cbs ++ newIds (declaredIds cbs) ((menuPairs cbs).map Prod.snd) ++
      newIds (declaredIds cbs ++ newIds (declaredIds cbs) ((menuPairs cbs).map Prod.snd))
        ((cbs.keybindings.getD []).map KeybindingContrib.command) := by
    have e1 : List.map CommandRow.id (List.map (fun c =>
        (⟨c.command, c.title, kbLabelsFor gl fu c.command (cbs.keybindings.getD []),
          menusFor c.command (menuPairs cbs)⟩ : CommandRow)) (cbs.commands.getD [])) =
        declaredIds cbs := by
      rw [List.map_map]
      exact List.map_congr_left (fun c _ => rfl)
    have e2 : List.map CommandRow.id (List.map (fun i =>
        (⟨i, "", kbLabelsFor gl fu i (cbs.keybindings.getD []),
          menusFor i (menuPairs cbs)⟩ : CommandRow))
        (newIds (declaredIds cbs) ((menuPairs cbs).map Prod.snd))) =
        newIds (declaredIds cbs) ((menuPairs cbs).map Prod.snd) := by
      rw [List.map_map]
      exact map_rowId_of _ (fun i => rfl) _
    have e3 : List.map CommandRow.id (List.map (fun i =>
        (⟨i, "", kbLabelsFor gl fu i (cbs.keybindings.getD []), []⟩ : CommandRow))
        (newIds (declaredIds cbs ++ newIds (declaredIds cbs) ((menuPairs cbs).map Prod.snd))
          ((cbs.keybindings.getD []).map KeybindingContrib.command))) =
        newIds (declaredIds cbs ++ newIds (declaredIds cbs) ((menuPairs cbs).map Prod.snd))
          ((cbs.keybindings.getD []).map KeybindingContrib.command) := by
      rw [List.map_map]
      exact map_rowId_of _ (fun i => rfl) _
    rw [hR]
    simp only [rowIds, List.map_append]
    rw [e1, e2, e3]
  have hnd1 : (declaredIds cbs ++
      newIds (declaredIds cbs) ((menuPairs cbs).map Prod.snd)).Nodup :=
    List.Nodup.append h (nodup_newIds _ _)
      (fun a ha hb => ((mem_newIds a ((menuPairs cbs).map Prod.snd)
        (declaredIds cbs)).1 hb).2 ha)
  refine ⟨?_, ?_, ?_, ?_, ?_, ?_, ?_⟩
  · rw [hids]
    exact List.Nodup.append hnd1 (nodup_newIds _ _)
      (fun a ha hb => ((mem_newIds a
        ((cbs.keybindings.getD []).map KeybindingContrib.command) _).1 hb).2 ha)
  · intro i
    rw [hids]
    simp only [List.mem_append, mem_newIds]
    tauto
  · intro c hc
    rw [hR]
    exact List.mem_append_left _ (List.mem_append_left _ (List.mem_map_of_mem _ hc))
  · intro r hr hnotin
    rw [hR] at hr
    rcases List.mem_append.1 hr with hr' | hr'
    · rcases List.mem_append.1 hr' with hr2 | hr2
      · obtain ⟨c, hc, rfl⟩ := List.mem_map.1 hr2
        exact absurd (List.mem_map_of_mem CommandContribution.command hc) hnotin
      · obtain ⟨i, _, rfl⟩ := List.mem_map.1 hr2
        rfl
    · obtain ⟨i, _, rfl⟩ := List.mem_map.1 hr'
      rfl
  · intro r hr
    rw [hR] at hr
    rcases List.mem_append.1 hr with hr' | hr'
    · rcases List.mem_append.1 hr' with hr2 | hr2
      · obtain ⟨c, _, rfl⟩ := List.mem_map.1 hr2
        exact ⟨rfl, rfl⟩
      · obtain ⟨i, _, rfl⟩ := List.mem_map.1 hr2
        exact ⟨rfl, rfl⟩
    · obtain ⟨i, hi, rfl⟩ := List.mem_map.1 hr'
      refine ⟨rfl, ?_⟩
      have hnotM : i ∉ (menuPairs cbs).map Prod.snd := by
        have h2 := ((mem_newIds i
          ((cbs.keybindings.getD []).map KeybindingContrib.command)
          (declaredIds cbs ++
            newIds (declaredIds cbs) ((menuPairs cbs).map Prod.snd))).1 hi).2
        intro hiM
        by_cases hD : i ∈ declaredIds cbs
        · exact h2 (List.mem_append_left _ hD)
        · exact h2 (List.mem_append_right _
            ((mem_newIds i ((menuPairs cbs).map Prod.snd) (declaredIds cbs)).2 ⟨hiM, hD⟩))
      exact (menusFor_eq_nil i (menuPairs cbs) hnotM).symm
  · simp [rowIds]
  · intro hne
    rw [renderCommands_eq gl fu m cbs hm,
      if_neg (by simpa [List.length_eq_zero] using hne)]

/-- Witness for C9 at the example manifest: the merged rows have pairwise
distinct ids, and the rendered section shows their count. -/
theorem commands_merge_unique_witness :
    (rowIds (commandRows exampleLabelFor exampleFromUserSettings exampleContributes)).Nodup ∧
    renderCommands exampleLabelFor exampleFromUserSettings exampleManifest =
      Except.ok (some
        ((commandRows exampleLabelFor exampleFromUserSettings exampleContributes).length,
          commandRows exampleLabelFor exampleFromUserSettings exampleContributes)) := by
  have H := commands_merge_unique exampleLabelFor exampleFromUserSettings exampleManifest
    exampleContributes rfl (by decide)
  exact ⟨H.1, H.2.2.2.2.2.2 (by decide)⟩

/-- Counterexample to claim C9 as stated: a manifest declaring the command id
`x` twice in `contributes.commands` renders a table with two rows both
carrying id `x` (the `allCommands` map only keeps the last declaration, but
the rendered rows come from the `commands` array, which keeps both), so a
command id does not appear in exactly one row. -/
theorem commands_duplicate_id_two_rows :
    renderCommands exampleLabelFor exampleFromUserSettings dupManifest =
      Except.ok (some (2, [⟨"x", "a", [], []⟩, ⟨"x", "b", [], []⟩])) ∧
    (rowIds [(⟨"x", "a", [], []⟩ : CommandRow), ⟨"x", "b", [], []⟩]).count "x" = 2 :=
  ⟨rfl, rfl⟩

end ExtensionEditor
